import Mathlib

/-!
Verification of the span-resolution core of the s2orc-doc2json repository.

Strings are modelled as lists of characters (`Str`); Python integers as `Int`;
Python list slicing via `pySlice` (clamping semantics); fallible code returns
`Option` (`none` = an uncaught exception / a failed `assert`).

The definitions in the first half of this file are shallow embeddings of:
  * doc2json/grobid2json/tei_to_json.py  (paragraph / citation processing)
  * pdf2json/utils/refspan_util.py       (span substitution engine)
  * pdf2json/utils/citation_util.py      (regexes, expansion strings)
  * doc2json/s2orc.py                    (Paper serialization / loading)
  * doc2json/grobid2json/grobid/grobid_client.py (status handling)
The second half contains the theorems settling the claims.
-/

namespace D2J

abbrev Str := List Char

/-- Coerce a Lean string literal to the `List Char` representation. -/
def lstr (s : String) : Str := s.data

/-! ### Python string primitives -/

/-- Python's `\s` character class (ASCII part, which is all the code relies on). -/
def isPySpace (c : Char) : Bool :=
  c = ' ' ∨ c = '\t' ∨ c = '\n' ∨ c = '\r' ∨ c = Char.ofNat 11 ∨ c = Char.ofNat 12

/-- Clamp a Python slice index into `[0, n]` (negative indices count from the end). -/
def pyBound (n : Nat) (i : Int) : Nat :=
  if i < 0 then (i + n).toNat else min i.toNat n

/-- Python `s[a:b]`. -/
def pySlice (s : Str) (a b : Int) : Str :=
  (s.take (pyBound s.length b)).drop (pyBound s.length a)

/-- Python `s[a:]`. -/
def pySliceFrom (s : Str) (a : Int) : Str := s.drop (pyBound s.length a)

/-- Python `s[:b]`. -/
def pySliceTo (s : Str) (b : Int) : Str := s.take (pyBound s.length b)

/-- Python `s.strip()` (whitespace from both ends). -/
def pyStrip (s : Str) : Str :=
  ((s.dropWhile isPySpace).reverse.dropWhile isPySpace).reverse

/-- Python `s.strip(chars)`: strips any of the characters in `chars` from both ends. -/
def pyStripSet (chars : Str) (s : Str) : Str :=
  ((s.dropWhile (chars.contains ·)).reverse.dropWhile (chars.contains ·)).reverse

/-- Worker for `re.sub(r'\s+', ' ', s)`: the flag records whether the
previous character was part of a whitespace run being collapsed. -/
def subWsRunsGo : Bool → Str → Str
  | _, [] => []
  | inRun, c :: rest =>
    if isPySpace c then
      if inRun then subWsRunsGo true rest else ' ' :: subWsRunsGo true rest
    else c :: subWsRunsGo false rest

/-- Python `re.sub(r'\s+', ' ', s)`: each maximal whitespace run becomes one space. -/
def subWsRuns (s : Str) : Str := subWsRunsGo false s

/-- Python `re.sub(r'\s', ' ', s)`. -/
def subWsEach (s : Str) : Str := s.map (fun c => if isPySpace c then ' ' else c)

/-- Worker for Python `s.replace(pat, rep)`; the fuel (initially the string
length, always sufficient since every step consumes a character) keeps the
recursion structural. -/
def replaceAllGo (pat rep : Str) : Nat → Str → Str
  | 0, s => s
  | fuel + 1, s =>
    match s with
    | [] => []
    | c :: rest =>
      if pat ≠ [] ∧ pat.isPrefixOf (c :: rest) then
        rep ++ replaceAllGo pat rep fuel ((c :: rest).drop pat.length)
      else c :: replaceAllGo pat rep fuel rest

/-- Python `s.replace(pat, rep)` (all non-overlapping occurrences, left to right). -/
def replaceAll (pat rep : Str) (s : Str) : Str := replaceAllGo pat rep s.length s

/-- `'0'..'9'`. -/
def isDigitCh (c : Char) : Bool := 48 ≤ c.toNat ∧ c.toNat ≤ 57

/-- `'1'..'9'`. -/
def isNonzeroDigit (c : Char) : Bool := 49 ≤ c.toNat ∧ c.toNat ≤ 57

def digitChar (d : Nat) : Char := Char.ofNat (48 + d)

def digitVal (c : Char) : Nat := c.toNat - 48

/-- Decimal digit characters of `n`, least significant first (fuel-structural;
any fuel at least `n` is exact). -/
def natDigitsRev : Nat → Nat → List Char
  | 0, _ => []
  | fuel + 1, n => if n = 0 then [] else digitChar (n % 10) :: natDigitsRev fuel (n / 10)

/-- Python `str(n)` for a natural number. -/
def natToStr (n : Nat) : Str :=
  if n = 0 then ['0'] else (natDigitsRev n n).reverse

/-- Python `str(i)` for an integer. -/
def intToStr (i : Int) : Str :=
  if i < 0 then '-' :: natToStr (-i).toNat else natToStr i.toNat

/-- Decimal value of a digit string. -/
def digitsVal (ds : Str) : Nat := ds.foldl (fun a c => 10 * a + digitVal c) 0

/-- Parse a nonempty all-digit string. -/
def parseDigitsNat (s : Str) : Option Nat :=
  if s ≠ [] ∧ s.all isDigitCh then some (digitsVal s) else none

/-- Python `int(s)` restricted to the shapes arising here: optional minus sign
followed by decimal digits; `none` models the `ValueError`. -/
def pyInt (s : Str) : Option Int :=
  if s.head? = some '-' then (parseDigitsNat s.tail).map (fun n => -(n : Int))
  else (parseDigitsNat s).map (fun n => (n : Int))

/-! ### pdf2json/utils/refspan_util.py — the span substitution engine

A span-to-replace is the tuple `(start_ind, end_ind, span_text, new_substring)`
of `replace_refspans`. -/

structure Sp where
  s : Int
  e : Int
  tok : Str
  rep : Str
deriving DecidableEq, Repr

/-- `shift_amount = len(new_string) - len(span) + len(pre_padding) + len(post_padding)`. -/
def shiftAmount (pre post : Str) (x : Sp) : Int :=
  (x.rep.length : Int) - x.tok.length + pre.length + post.length

/-- One iteration of the inner loop of `replace_refspans` (lines 42-63):
how a later entry is adjusted after the current span (ending at `e`,
with shift `shift`) has been scheduled for replacement. -/
def adjustOne (e shift : Int) (btwn pre post : Str) (y : Sp) : Sp :=
  if y.e ≤ 0 then y
  else if y.s < e then ⟨0, 0, y.tok, []⟩
  else if y.s = e then ⟨y.s + shift, y.e + shift, y.tok, btwn ++ pre ++ y.rep ++ post⟩
  else ⟨y.s + shift, y.e + shift, y.tok, pre ++ y.rep ++ post⟩

/-- Worker for the outer loop of `replace_refspans` (lines 31-63): each
processed entry is emitted unchanged and all entries after it are adjusted.
The fuel (initially the list length, always exact) keeps the recursion
structural. -/
def shiftSpansGo (btwn pre post : Str) : Nat → List Sp → List Sp
  | 0, l => l
  | fuel + 1, l =>
    match l with
    | [] => []
    | x :: rest =>
      if x.e ≤ 0 then x :: shiftSpansGo btwn pre post fuel rest
      else x :: shiftSpansGo btwn pre post fuel
        (rest.map (adjustOne x.e (shiftAmount pre post x) btwn pre post))

/-- The outer loop of `replace_refspans`, rendered as recursion over the
(sorted, in-place mutated) list. -/
def shiftSpans (btwn pre post : Str) (l : List Sp) : List Sp :=
  shiftSpansGo btwn pre post l.length l

/-- The sort key relation of `list.sort(key=lambda x: x[0])`. -/
def byStart (a b : Sp) : Prop := a.s ≤ b.s

instance : DecidableRel byStart := fun a b => by unfold byStart; infer_instance

instance : IsTotal Sp byStart := ⟨fun a b => Int.le_total a.s b.s⟩

instance : IsTrans Sp byStart := ⟨fun _ _ _ h1 h2 => le_trans h1 h2⟩

/-- Python `list.sort(key=lambda x: x[0])` — a stable sort by start index
(insertion sort is stable, so it computes the same list as Python's sort). -/
def sortByStart (l : List Sp) : List Sp := l.insertionSort byStart

/-- `full_string[:start] + new_string + full_string[end:]`. -/
def applyOne (t : Str) (x : Sp) : Str := pySliceTo t x.s ++ x.rep ++ pySliceFrom t x.e

/-- The final application loop of `replace_refspans` (lines 69-71), including
the per-iteration `assert full_string[start:end] == span` (`none` on failure). -/
def applySpansChecked : List Sp → Str → Option Str
  | [], t => some t
  | x :: rest, t =>
    if pySlice t x.s x.e = x.tok then applySpansChecked rest (applyOne t x) else none

/-- `replace_refspans(spans_to_replace, full_string, pre_padding, post_padding,
btwn_padding)`; `none` models a failed `assert`. -/
def replace_refspans (spans : List Sp) (full : Str) (pre post btwn : Str) : Option Str :=
  if ¬ (∀ x ∈ spans, pySlice full x.s x.e = x.tok) then none
  else if ¬ (spans.map Sp.s).Nodup then none
  else
    let sorted := sortByStart spans
    let adjusted := shiftSpans btwn pre post sorted
    let kept := adjusted.filter (fun x => 0 < x.e)
    applySpansChecked (sortByStart kept) full

/-- The cumulative-offset computation of `sub_spans_and_update_indices`
(lines 100-107): `new_end = start + len(surface)`, `offset = new_end - end`,
offsets accumulated onto all later spans. -/
def newSpansCalc : Int → List Sp → List Sp
  | _, [] => []
  | c, x :: rest =>
    ⟨x.s + c, x.s + x.rep.length + c, x.tok, x.rep⟩ ::
      newSpansCalc (c + (x.s + x.rep.length - x.e)) rest

/-- `sub_spans_and_update_indices(spans_to_replace, full_string)`. -/
def sub_spans_and_update_indices (spans : List Sp) (full : Str) :
    Option (Str × List Sp) :=
  if ¬ (∀ x ∈ spans, pySlice full x.s x.e = x.tok) then none
  else if ¬ (spans.map Sp.s).Nodup then none
  else
    let sorted := sortByStart spans
    let newSpans := newSpansCalc 0 sorted
    match replace_refspans sorted full [] [] [] with
    | none => none
    | some newText => some (newText, newSpans)

/-! Specification-side descriptions of the engine (used only in theorems;
proved equal to the embedded functions under well-formedness). -/

/-- Sequential replacement in the original text: positions are absolute
offsets into `t`; `k` is the already-consumed prefix length. -/
def substFrom (t : Str) : Nat → List Sp → Str
  | k, [] => t.drop k
  | k, x :: rest => (t.drop k).take (x.s.toNat - k) ++ x.rep ++ substFrom t x.e.toNat rest

/-- All spans shifted by the running sum of `len(surface) - len(token)`. -/
def cumShifted : Int → List Sp → List Sp
  | _, [] => []
  | c, x :: rest =>
    ⟨x.s + c, x.e + c, x.tok, x.rep⟩ ::
      cumShifted (c + ((x.rep.length : Int) - x.tok.length)) rest

def shiftAllBy (c : Int) (l : List Sp) : List Sp :=
  l.map (fun x => ⟨x.s + c, x.e + c, x.tok, x.rep⟩)

/-- A span as produced by token discovery over text `t`: in-bounds, with
`end = start + len(token)` and the token actually sitting at its offsets. -/
def SpWf (t : Str) (x : Sp) : Prop :=
  0 ≤ x.s ∧ x.tok ≠ [] ∧ x.e = x.s + x.tok.length ∧ x.e ≤ t.length ∧
    (t.drop x.s.toNat).take x.tok.length = x.tok

instance (t : Str) (x : Sp) : Decidable (SpWf t x) := by
  unfold SpWf; infer_instance

/-- Two spans occupy disjoint offset ranges. -/
def SpDisj (a b : Sp) : Prop := a.e ≤ b.s ∨ b.e ≤ a.s

instance (a b : Sp) : Decidable (SpDisj a b) := by
  unfold SpDisj; infer_instance

/-- Chain form of disjointness for a sorted list. -/
def SpChain (l : List Sp) : Prop := l.Pairwise (fun a b => a.e ≤ b.s)

/-- The text-independent part of `SpWf`. -/
def SpWfB (x : Sp) : Prop := 0 ≤ x.s ∧ x.tok ≠ [] ∧ x.e = x.s + x.tok.length

instance (x : Sp) : Decidable (SpWfB x) := by
  unfold SpWfB; infer_instance

/-! ### pdf2json/utils/citation_util.py -/

def BRACKET_STYLE_THRESHOLD : Nat := 5

/-- `EXPANSION_CHARS = {'-', '–'}` (hyphen and en-dash U+2013). -/
def EXPANSION_CHARS : Str := ['-', Char.ofNat 8211]

/-- `is_expansion_string(between_string)`. -/
def is_expansion_string (between_string : Str) : Bool :=
  between_string.length ≤ 2 ∧
    between_string.any (fun c => EXPANSION_CHARS.contains c) ∧
    between_string.all (fun c => EXPANSION_CHARS.contains c ∨ c = ' ')

/-- `SINGLE_BRACKET_REGEX.match(s)` followed by `int(match.group(1))`:
the pattern is an opening bracket, one to three digits with a nonzero
leading digit, and a closing bracket, matched as a prefix of `s`
(Python `re.match` anchors only at the start). -/
def singleBracketNum (s : Str) : Option Nat :=
  if s.head? = some '[' then
    let rest := s.tail
    let ds := rest.takeWhile isDigitCh
    if ((ds.head?.map isNonzeroDigit).getD false) ∧ ds.length ≤ 3 ∧
        (rest.drop ds.length).head? = some ']'
    then some (digitsVal ds) else none
  else none

/-- The separator class `[,;\-\s]` of `BRACKET_REGEX`. -/
def isSepCh (c : Char) : Bool := c = ',' ∨ c = ';' ∨ c = '-' ∨ isPySpace c

/-- `;?\]` as a prefix. -/
def brClose : Str → Bool
  | ']' :: _ => true
  | ';' :: ']' :: _ => true
  | _ => false

/-- `[1-9]\d{0,2}` then continuation `k` (all one-to-three digit splits tried,
i.e. the existence semantics of regex backtracking). -/
def brNum (k : Str → Bool) : Str → Bool
  | c :: rest =>
    isNonzeroDigit c &&
      (k rest ||
        match rest with
        | c2 :: rest2 =>
          isDigitCh c2 &&
            (k rest2 ||
              match rest2 with
              | c3 :: rest3 => isDigitCh c3 && k rest3
              | [] => false)
        | [] => false)
  | [] => false

/-- `[,;\-\s]+` then continuation `k` (every split with at least one
separator consumed is tried). -/
def brSeps (k : Str → Bool) : Str → Bool
  | c :: rest => isSepCh c && (k rest || brSeps k rest)
  | [] => false

/-- `([,;\-\s]+[1-9]\d{0,2})*;?\]` as a prefix; the fuel bounds the number
of star iterations and always suffices (each iteration consumes two or more
characters). -/
def brTail : Nat → Str → Bool
  | 0, _ => false
  | fuel + 1, s => brClose s || brSeps (fun s2 => brNum (brTail fuel) s2) s

/-- `bool(BRACKET_REGEX.match(s))` for
`BRACKET_REGEX = \[[1-9]\d{0,2}([,;\-\s]+[1-9]\d{0,2})*;?\]`. -/
def bracketMatch : Str → Bool
  | '[' :: rest => brNum (fun s2 => brTail (s2.length + 1) s2) rest
  | _ => false

/-! ### doc2json/grobid2json/tei_to_json.py -/

/-- `normalize_grobid_id(grobid_id)`. -/
def normalize_grobid_id (grobid_id : Str) : Str :=
  let str_norm :=
    ((grobid_id.map Char.toUpper).filter (fun c => c ≠ '_')).filter (fun c => c ≠ '#')
  if (lstr "B").isPrefixOf str_norm then replaceAll (lstr "B") (lstr "BIBREF") str_norm
  else if (lstr "TAB").isPrefixOf str_norm then replaceAll (lstr "TAB") (lstr "TABREF") str_norm
  else if (lstr "FIG").isPrefixOf str_norm then replaceAll (lstr "FIG") (lstr "FIGREF") str_norm
  else if (lstr "FORMULA").isPrefixOf str_norm then
    replaceAll (lstr "FORMULA") (lstr "EQREF") str_norm
  else str_norm

/-- `UniqTokenGenerator`: monotonic counter per token family. -/
structure UniqTokenGenerator where
  tok_string : Str
  ind : Nat
deriving DecidableEq, Repr

/-- `UniqTokenGenerator.next()`: returns the fresh token and the updated
generator state. -/
def UniqTokenGenerator.next (g : UniqTokenGenerator) : Str × UniqTokenGenerator :=
  (g.tok_string ++ natToStr g.ind, ⟨g.tok_string, g.ind + 1⟩)

/-- The list of tokens produced by `n` successive calls to `next`. -/
def tokensFrom (g : UniqTokenGenerator) : Nat → List Str
  | 0 => []
  | n + 1 => (g.next).1 :: tokensFrom (g.next).2 n

def citeToken (n : Nat) : Str := lstr "CITETOKEN" ++ natToStr n

def refToken (n : Nat) : Str := lstr "REFTOKEN" ++ natToStr n

/-- A node of a paragraph subtree: a bs4 `NavigableString`, or a `<ref>` tag
with its `type` attribute, `target` attribute and element text.  (Formula
elements have already been replaced by plain strings when the passes modelled
here run, and other tags do not occur inside the processed `<p>` elements.) -/
inductive PNode where
  | nav (text : Str)
  | ref (rtype : Option Str) (target : Option Str) (text : Str)
deriving DecidableEq, Repr

def nodeText : PNode → Str
  | .nav s => s
  | .ref _ _ s => s

/-- `para_el.text`: concatenation of all contained strings. -/
def paraText (nodes : List PNode) : Str := (nodes.map nodeText).flatten

/-- `rtag.previous_siblings` string accumulation (lines 311-318): walk the
processed prefix backwards (its head is the nearest previous sibling),
appending each NavigableString, stopping at the first `<ref>`. -/
def backwardBetween : List PNode → Str
  | [] => []
  | .nav s :: rest => s ++ backwardBetween rest
  | .ref _ _ _ :: _ => []

/-- `rtag.next_siblings` string accumulation (lines 373-380). -/
def forwardBetween : List PNode → Str
  | [] => []
  | .nav s :: rest => s ++ forwardBetween rest
  | .ref _ _ _ :: _ => []

/-- `rtag.find_previous_sibling('ref')`: nearest previous `<ref>`. -/
def findPrevRef : List PNode → Option (Option Str × Option Str × Str)
  | [] => none
  | .ref ty tg tx :: _ => some (ty, tg, tx)
  | .nav _ :: rest => findPrevRef rest

/-- The deletion loop (lines 330-336): every NavigableString before the
previous `<ref>` is replaced with the empty string. -/
def emptyBetween : List PNode → List PNode
  | [] => []
  | .nav _ :: rest => .nav [] :: emptyBetween rest
  | .ref ty tg tx :: rest => .ref ty tg tx :: rest

/-- `previous_rtag.decompose()`: remove the nearest previous `<ref>`. -/
def removePrevRef : List PNode → List PNode
  | [] => []
  | .ref _ _ _ :: rest => rest
  | .nav s :: rest => .nav s :: removePrevRef rest

/-- `previous_rtag.replace_with(...)` (line 364). -/
def replacePrevRef (new : PNode) : List PNode → List PNode
  | [] => []
  | .ref _ _ _ :: rest => new :: rest
  | .nav s :: rest => .nav s :: replacePrevRef new rest

/-- `_create_surface_range(start_number, end_number)`. -/
def createSurfaceRange (a b : Nat) : List Str :=
  (List.range (b + 1 - a)).map (fun i => '[' :: (natToStr (a + i) ++ [']']))

/-- Python `range(a, b + 1)` over integers. -/
def intRangeIncl (a b : Int) : List Int :=
  (List.range (b + 1 - a).toNat).map (fun (i : Nat) => a + (i : Int))

/-- `_create_ref_id_range(start_ref_id, end_ref_id)`; `none` models the
uncaught `ValueError` of `int` when `ref_id[6:]` is not an integer literal. -/
def createRefIdRange (startId endId : Str) : Option (List Str) :=
  match pyInt (startId.drop 6), pyInt (endId.drop 6) with
  | some a, some b => some ((intRangeIncl a b).map (fun n => lstr "BIBREF" ++ intToStr n))
  | _, _ => none

/-- `_get_surface_range(start_surface, end_surface)`. -/
def getSurfaceRange (s1 s2 : Str) : Option (Nat × Nat) :=
  match singleBracketNum s1, singleBracketNum s2 with
  | some n1, some n2 =>
    if 1 < (n2 : Int) - n1 ∧ (n2 : Int) - n1 < 20 then some (n1, n2) else none
  | _, _ => none

/-- State threaded through `process_citations_in_paragraph`: processed
prefix of the paragraph (reversed, head = nearest previous sibling),
`cite_map` in insertion order, and the CITETOKEN generator counter. -/
structure CiteState where
  done : List PNode
  cmap : List (Str × (Option Str × Str))
  ctr : Nat
deriving DecidableEq, Repr

/-- The range-expansion emission loop (lines 346-355): one fresh token per
`(ref_id, surface)` pair; ids absent from the bibliography yield `None`.
Returns the new cite-map entries, the accumulated `replace_string`, and the
updated counter. -/
def emitRange (bibs : List Str) : Nat → List (Str × Str) → List (Str × (Option Str × Str)) × Str × Nat
  | ctr, [] => ([], [], ctr)
  | ctr, (rid, surf) :: rest =>
    let k := citeToken ctr
    let (es, rs, ctr') := emitRange bibs (ctr + 1) rest
    ((k, (if bibs.contains rid then some rid else none, surf)) :: es, k ++ ' ' :: rs, ctr')

/-- Processing of a single `<ref>` tag inside the `for rtag in
para_el.find_all('ref')` loop of `process_citations_in_paragraph`
(lines 276-396).  `suffix` is the (unprocessed) remainder of the paragraph
after the tag, used only by the forward sibling scan.  `none` is the uncaught
`ValueError`; the `except AttributeError: continue` paths leave the tag in
place with whatever sibling mutations already happened. -/
def processOneRef (bibs : List Str) (bracket : Bool) (st : CiteState)
    (ty tg : Option Str) (tx : Str) (suffix : List PNode) : Option CiteState :=
  let surface := pyStrip tx
  match tg with
  | none =>
    let k := citeToken st.ctr
    some ⟨.nav (' ' :: (k ++ [' '])) :: st.done, st.cmap ++ [(k, (none, surface))], st.ctr + 1⟩
  | some tgt =>
    let rid := normalize_grobid_id tgt
    if ¬ bibs.contains rid then
      let k := citeToken st.ctr
      some ⟨.nav (' ' :: (k ++ [' '])) :: st.done, st.cmap ++ [(k, (none, surface))], st.ctr + 1⟩
    else if ¬ bracket then
      let k := citeToken st.ctr
      some ⟨.nav (' ' :: (k ++ [' '])) :: st.done, st.cmap ++ [(k, (some rid, surface))], st.ctr + 1⟩
    else if ¬ (surface ≠ [] ∧ (surface.head? = some '[' ∨ surface.getLast? = some ']' ∨
        surface.getLast? = some ',')) then
      some ⟨.nav (' ' :: (surface ++ [' '])) :: st.done, st.cmap, st.ctr⟩
    else if is_expansion_string (backwardBetween st.done) then
      match findPrevRef st.done with
      | none =>
        -- AttributeError on `.text` of `None` (line 324): tag left in place.
        some ⟨.ref ty tg tx :: st.done, st.cmap, st.ctr⟩
      | some (_, ptg, ptx) =>
        match getSurfaceRange (pyStrip ptx) surface with
        | some (n1, n2) =>
          let done1 := emptyBetween st.done
          match ptg with
          | none =>
            -- AttributeError inside `normalize_grobid_id(None)` (line 340):
            -- the between-strings were already emptied; tag left in place.
            some ⟨.ref ty tg tx :: done1, st.cmap, st.ctr⟩
          | some ptgt =>
            let prid := normalize_grobid_id ptgt
            let done2 := removePrevRef done1
            match createRefIdRange prid rid with
            | none => none
            | some idRange =>
              let pairs := idRange.zip (createSurfaceRange n1 n2)
              let (es, rs, ctr') := emitRange bibs st.ctr pairs
              some ⟨.nav (' ' :: (rs ++ [' '])) :: done2, st.cmap ++ es, ctr'⟩
        | none =>
          match findPrevRef st.done with
          | none => some ⟨.ref ty tg tx :: st.done, st.cmap, st.ctr⟩
          | some (_, ptg, ptx) =>
            match ptg with
            | none =>
              -- AttributeError inside `normalize_grobid_id(None)` (line 361).
              some ⟨.ref ty tg tx :: st.done, st.cmap, st.ctr⟩
            | some ptgt =>
              let prid := normalize_grobid_id ptgt
              let k1 := citeToken st.ctr
              let done1 := replacePrevRef (.nav (' ' :: (k1 ++ [' ']))) st.done
              let k2 := citeToken (st.ctr + 1)
              some ⟨.nav (' ' :: (k2 ++ [' '])) :: done1,
                st.cmap ++ [(k1, (some prid, pyStrip ptx)), (k2, (some rid, surface))],
                st.ctr + 2⟩
    else if is_expansion_string (forwardBetween suffix) then
      -- Range will be expanded at the second endpoint; tag left in place.
      some ⟨.ref ty tg tx :: st.done, st.cmap, st.ctr⟩
    else
      let k := citeToken st.ctr
      some ⟨.nav (' ' :: (k ++ [' '])) :: st.done, st.cmap ++ [(k, (some rid, surface))], st.ctr + 1⟩

/-- The driver loop of `process_citations_in_paragraph`: `find_all('ref')`
iterates the tags in document order while the surrounding tree is mutated;
the zipper state `st.done` is the mutated prefix. -/
def processCitesGo (bibs : List Str) (bracket : Bool) :
    CiteState → List PNode → Option (List PNode × List (Str × (Option Str × Str)) × Nat)
  | st, [] => some (st.done.reverse, st.cmap, st.ctr)
  | st, .nav s :: rest => processCitesGo bibs bracket ⟨.nav s :: st.done, st.cmap, st.ctr⟩ rest
  | st, .ref ty tg tx :: rest =>
    match processOneRef bibs bracket st ty tg tx rest with
    | none => none
    | some st' => processCitesGo bibs bracket st' rest

/-- `process_citations_in_paragraph(para_el, sp, bibs, bracket)`: returns the
mutated paragraph nodes, the cite map and the final token counter. -/
def process_citations_in_paragraph (nodes : List PNode) (bibs : List Str) (bracket : Bool) :
    Option (List PNode × List (Str × (Option Str × Str)) × Nat) :=
  processCitesGo bibs bracket ⟨[], [], 0⟩ nodes

/-- `process_references_in_paragraph(para_el, sp, refs)`: non-citation
`<ref>` tags become REFTOKENs (tables/figures) or plain strings. -/
def processRefsGo (refs : List Str) :
    List PNode → List (Str × (Option Str × Str × Str)) → Nat → List PNode →
      List PNode × List (Str × (Option Str × Str × Str)) × Nat
  | done, rmap, ctr, [] => (done.reverse, rmap, ctr)
  | done, rmap, ctr, .nav s :: rest => processRefsGo refs (.nav s :: done) rmap ctr rest
  | done, rmap, ctr, .ref ty tg tx :: rest =>
    if ty = some (lstr "bibr") then
      processRefsGo refs (.ref ty tg tx :: done) rmap ctr rest
    else if ty = some (lstr "table") ∨ ty = some (lstr "figure") then
      let rid :=
        match tg with
        | some g => if g ≠ [] ∧ refs.contains (normalize_grobid_id g)
                    then some (normalize_grobid_id g) else none
        | none => none
      let k := refToken ctr
      processRefsGo refs (.nav (' ' :: (k ++ [' '])) :: done)
        (rmap ++ [(k, (rid, pyStrip tx, (ty.getD [])))]) (ctr + 1) rest
    else
      processRefsGo refs (.nav (pyStrip tx) :: done) rmap ctr rest

def process_references_in_paragraph (nodes : List PNode) (refs : List Str) :
    List PNode × List (Str × (Option Str × Str × Str)) × Nat :=
  processRefsGo refs [] [] 0 nodes

/-- Length of the token-regex match (`pat` followed by one or more digits,
greedy) at the head of `s`; `0` when there is no match. -/
def matchTokenLen (pat : Str) (s : Str) : Nat :=
  if pat.isPrefixOf s then
    let ds := (s.drop pat.length).takeWhile isDigitCh
    if ds = [] then 0 else pat.length + ds.length
  else 0

/-- Worker for `re.finditer` over the token patterns, fuel-structural
(fuel initially the string length, always sufficient). -/
def findTokensGo (pat : Str) : Nat → Nat → Str → List (Nat × Str)
  | 0, _, _ => []
  | fuel + 1, pos, s =>
    match s with
    | [] => []
    | c :: rest =>
      let n := matchTokenLen pat (c :: rest)
      if n = 0 then findTokensGo pat fuel (pos + 1) rest
      else (pos, (c :: rest).take n) :: findTokensGo pat fuel (pos + n) ((c :: rest).drop n)

/-- `re.finditer` for the token patterns `CITETOKEN\d+` / `REFTOKEN\d+`:
scans left to right, resuming after each (non-overlapping) match; returns
`(absolute start, matched text)` pairs. -/
def findTokens (pat : Str) (pos : Nat) (s : Str) : List (Nat × Str) :=
  findTokensGo pat s.length pos s

/-- Build the `all_spans_to_replace` entries for one token family
(lines 444-461): dictionary lookup failure is an uncaught `KeyError`. -/
def buildSpans {β : Type} (surfaceOf : β → Str) (m : List (Str × β))
    (found : List (Nat × Str)) : Option (List Sp) :=
  found.mapM (fun pr =>
    (m.lookup pr.2).map (fun v => ⟨(pr.1 : Int), (pr.1 : Int) + pr.2.length, pr.2, surfaceOf v⟩))

/-- The final paragraph dictionary. -/
structure SpanBlob where
  start : Int
  stop : Int
  text : Str
  ref_id : Option Str
deriving DecidableEq, Repr

structure ParaBlob where
  text : Str
  cite_spans : List SpanBlob
  ref_spans : List SpanBlob
  eq_spans : List SpanBlob
  sec : List (Option Str × Str)
deriving DecidableEq, Repr

/-- `process_paragraph(sp, para_el, section_names, bib_dict, ref_dict, bracket)`.
Returns the paragraph dictionary together with the final (mutated) element
nodes; `none` models an uncaught exception, including the final span asserts
(lines 480-484). -/
def process_paragraph (nodes : List PNode) (section_names : List (Option Str × Str))
    (bibs : List Str) (refs : List Str) (bracket : Bool) :
    Option (ParaBlob × List PNode) :=
  if paraText nodes = [] then some (⟨[], [], [], [], section_names⟩, nodes)
  else
    let r1 := process_references_in_paragraph nodes refs
    match process_citations_in_paragraph r1.1 bibs bracket with
    | none => none
    | some (nodes2, cmap, _) =>
      let para_text := subWsEach (subWsRuns (paraText nodes2))
      let citeFound := findTokens (lstr "CITETOKEN") 0 para_text
      let refFound := findTokens (lstr "REFTOKEN") 0 para_text
      match buildSpans (fun v => v.2) cmap citeFound with
      | none => none
      | some citeSpans =>
      match buildSpans (fun v => v.2.1) r1.2.1 refFound with
      | none => none
      | some refSpans2 =>
        match sub_spans_and_update_indices (citeSpans ++ refSpans2) para_text with
        | none => none
        | some (newText, outSpans) =>
          match outSpans.mapM (fun y =>
              if (lstr "CITETOKEN").isPrefixOf y.tok then
                (cmap.lookup y.tok).map (fun v => ((0 : Nat), SpanBlob.mk y.s y.e y.rep v.1))
              else if (lstr "REFTOKEN").isPrefixOf y.tok then
                (r1.2.1.lookup y.tok).map (fun v => ((1 : Nat), SpanBlob.mk y.s y.e y.rep v.1))
              else some ((2 : Nat), SpanBlob.mk y.s y.e y.rep none)) with
          | none => none
          | some tagged =>
            let cite_blobs := (tagged.filter (fun p => p.1 = 0)).map (fun p => p.2)
            let ref_blobs := (tagged.filter (fun p => p.1 = 1)).map (fun p => p.2)
            if (∀ b ∈ cite_blobs, pySlice newText b.start b.stop = b.text) ∧
               (∀ b ∈ ref_blobs, pySlice newText b.start b.stop = b.text) then
              some (⟨newText, cite_blobs, ref_blobs, [], section_names⟩, nodes2)
            else none

/-! ### check_if_citations_are_bracket_style (tei_to_json.py lines 148-171) -/

/-- A `<ref>` tag as seen by the classifier. -/
structure RefTagM where
  rtype : Option Str
  text : Str
deriving DecidableEq, Repr

/-- A `<div>` of the body: whether it has a `<head>`, and its `<ref>` tags. -/
structure DivM where
  hasHead : Bool
  refs : List RefTagM
deriving DecidableEq, Repr

/-- The `cite_strings` collection loop: skip divs with a head, keep
stripped texts of refs with `type == 'bibr'`. -/
def collectCiteStrings (divs : List DivM) : List Str :=
  (divs.filter (fun d => ¬ d.hasHead)).flatMap
    (fun d => (d.refs.filter (fun r => r.rtype = some (lstr "bibr"))).map
      (fun r => pyStrip r.text))

/-- `check_if_citations_are_bracket_style(sp)`; the argument is `sp.body`
(`none` when the document has no body). -/
def check_if_citations_are_bracket_style (body : Option (List DivM)) : Bool :=
  match body with
  | none => false
  | some divs =>
    let cite_strings := collectCiteStrings divs
    let bracket_style := cite_strings.map (fun c => bracketMatch c)
    decide (BRACKET_STYLE_THRESHOLD < (bracket_style.filter (fun b => b)).length)

/-! ### doc2json/grobid2json/grobid/grobid_client.py — process_pdf_stream -/

/-- One HTTP response of the GROBID service. -/
structure GrobidResponse where
  status : Nat
  text : Str
deriving DecidableEq, Repr

/-- `GrobidClient.process_pdf_stream` (lines 109-125) on the response `r` to
the posted request, returning the result together with the failure-log and
sleep traces.  Status 503 sleeps `sleep_time` seconds (recorded in the
sleep trace) and then evaluates the recursive call
`self.process_pdf_stream(pdf_file, pdf_strm, service)` (line 118) — which
omits the required `output` parameter of the signature (line 67), so Python
raises an uncaught `TypeError` (result `none`): the request is never
actually retried.  Any other non-200 status appends
`pdf_file.strip(".pdf") + "\n"` to the failure log and returns the empty
string; 200 returns the response text. -/
def process_pdf_stream (pdf_file : Str) (sleep_time : Nat)
    (log : List Str) (sleeps : List Nat) (r : GrobidResponse) :
    Option Str × List Str × List Nat :=
  if r.status = 503 then
    (none, log, sleeps ++ [sleep_time])
  else if r.status ≠ 200 then
    (some [], log ++ [pyStripSet (lstr ".pdf") pdf_file ++ ['\n']], sleeps)
  else
    (some r.text, log, sleeps)

/-! ### doc2json/s2orc.py — Paper serialization and loading -/

/-- JSON values; objects are association lists in Python dict insertion
order (keys unique). -/
inductive JVal where
  | null
  | jstr (s : Str)
  | jint (n : Int)
  | jbool (b : Bool)
  | arr (xs : List JVal)
  | obj (kvs : List (Str × JVal))
deriving BEq, Repr

def jLookup (kvs : List (Str × JVal)) (k : Str) : Option JVal := kvs.lookup k

/-- Python truthiness for the JSON values occurring here. -/
def jTruthy : Option JVal → Bool
  | none => false
  | some .null => false
  | some (.jstr s) => ¬ s.isEmpty
  | some (.jint n) => n ≠ 0
  | some (.jbool b) => b
  | some (.arr xs) => ¬ xs.isEmpty
  | some (.obj kvs) => ¬ kvs.isEmpty

/-- `CORRECT_KEYS = {"issn": "issue", "type": "type_str"}` applied to a key. -/
def correctKey (k : Str) : Str :=
  if k = lstr "issn" then lstr "issue"
  else if k = lstr "type" then lstr "type_str"
  else k

/-- Worker for Python `s.split(sep)`: `acc` is the reversed current part;
the fuel (initially the string length, always sufficient) keeps the
recursion structural. -/
def pySplitGo (sep : Str) : Nat → Str → Str → List Str
  | 0, acc, s => [acc.reverse ++ s]
  | fuel + 1, acc, s =>
    match s with
    | [] => [acc.reverse]
    | c :: rest =>
      if sep ≠ [] ∧ sep.isPrefixOf (c :: rest) then
        acc.reverse :: pySplitGo sep fuel [] ((c :: rest).drop sep.length)
      else
        pySplitGo sep fuel (c :: acc) rest

/-- Python `s.split(sep)` (nonempty separator). -/
def pySplit (sep : Str) (s : Str) : List Str := pySplitGo sep s.length [] s

def jStr? : Option JVal → Option Str
  | some (.jstr s) => some s
  | _ => none

def jArr? : Option JVal → Option (List JVal)
  | some (.arr xs) => some xs
  | _ => none

def jObj? : Option JVal → Option (List (Str × JVal))
  | some (.obj kvs) => some kvs
  | _ => none

/-- Lookup a key of a JSON object. -/
def jGet (d : JVal) (k : Str) : Option JVal :=
  match d with
  | .obj kvs => kvs.lookup k
  | _ => none

/-- Python dict assignment `d[k] = v` (updates in place, or appends). -/
def upsert (kvs : List (Str × JVal)) (k : Str) (v : JVal) : List (Str × JVal) :=
  if (kvs.lookup k).isSome then kvs.map (fun p => if p.1 = k then (k, v) else p)
  else kvs ++ [(k, v)]

def optStrJ : Option Str → JVal
  | none => .null
  | some s => .jstr s

/-- `Paragraph` (s2orc.py lines 312-381); `sect` is the normalized
`self.section` (a list of `(sec_num, title)` pairs, or `None`).  Span lists
are carried as raw JSON values — the class passes them through untouched. -/
structure ParagraphS where
  text : Str
  cite_spans : List JVal
  ref_spans : List JVal
  eq_spans : List JVal
  sect : Option (List (Option Str × Str))
deriving BEq, Repr

/-- `Paragraph.as_json`. -/
def ParagraphS.as_json (p : ParagraphS) : JVal :=
  .obj [(lstr "text", .jstr p.text),
        (lstr "cite_spans", .arr p.cite_spans),
        (lstr "ref_spans", .arr p.ref_spans),
        (lstr "eq_spans", .arr p.eq_spans),
        (lstr "section", .jstr (match p.sect with
          | some l => if l = [] then [] else List.intercalate (lstr "::") (l.map (fun q => q.2))
          | none => [])),
        (lstr "sec_num", match p.sect with
          | some l => (match l.getLast? with
            | some q => optStrJ q.1
            | none => .null)
          | none => .null)]

def paragraphParamNames : List Str :=
  [lstr "text", lstr "cite_spans", lstr "ref_spans", lstr "eq_spans",
   lstr "section", lstr "sec_num"]

/-- `Paragraph(**para)` from a JSON dictionary: unexpected keys are a
`TypeError` (`none`); a string `section` is split on `::` and the trailing
`sec_num` is re-attached to the last component when both are truthy. -/
def mkParagraph (kvs : List (Str × JVal)) : Option ParagraphS :=
  if ¬ kvs.all (fun p => paragraphParamNames.contains p.1) then none
  else
    match jStr? (jLookup kvs (lstr "text")), jArr? (jLookup kvs (lstr "cite_spans")),
          jArr? (jLookup kvs (lstr "ref_spans")) with
    | some text, some cs, some rs =>
      let es := (jArr? (jLookup kvs (lstr "eq_spans"))).getD []
      match jLookup kvs (lstr "section") with
      | none => some ⟨text, cs, rs, es, none⟩
      | some .null => some ⟨text, cs, rs, es, none⟩
      | some (.jstr s) =>
        if s = [] then some ⟨text, cs, rs, es, none⟩
        else
          let parts := pySplit (lstr "::") s
          let base : List (Option Str × Str) := parts.map (fun t => ((none : Option Str), t))
          match jLookup kvs (lstr "sec_num") with
          | some (.jstr n) =>
            if n ≠ [] ∧ base ≠ [] then
              some ⟨text, cs, rs, es,
                some (base.dropLast ++ [((some n : Option Str), (parts.getLast?.getD []))])⟩
            else some ⟨text, cs, rs, es, some base⟩
          | _ => some ⟨text, cs, rs, es, some base⟩
      | some _ => none
    | _, _, _ => none

/-- `BibliographyEntry` (s2orc.py lines 98-175): apart from `bib_id` all
fields are carried as raw JSON values. -/
structure BibliographyEntryS where
  bib_id : Str
  ref_id : JVal
  title : JVal
  authors : JVal
  year : JVal
  venue : JVal
  volume : JVal
  issue : JVal
  pages : JVal
  other_ids : JVal
  num : JVal
  urls : JVal
  raw_text : JVal
  links : JVal
deriving BEq, Repr

/-- `BibliographyEntry.as_json` (note: `bib_id` is not emitted). -/
def BibliographyEntryS.as_json (b : BibliographyEntryS) : JVal :=
  .obj [(lstr "ref_id", b.ref_id), (lstr "title", b.title), (lstr "authors", b.authors),
        (lstr "year", b.year), (lstr "venue", b.venue), (lstr "volume", b.volume),
        (lstr "issue", b.issue), (lstr "pages", b.pages), (lstr "other_ids", b.other_ids),
        (lstr "num", b.num), (lstr "urls", b.urls), (lstr "raw_text", b.raw_text),
        (lstr "links", b.links)]

def bibParamNames : List Str :=
  [lstr "ref_id", lstr "title", lstr "authors", lstr "year", lstr "venue",
   lstr "volume", lstr "issue", lstr "pages", lstr "other_ids", lstr "num",
   lstr "urls", lstr "raw_text", lstr "links"]

/-- `BibliographyEntry(bib_id=key, **{CORRECT_KEYS.get(k,k): v ...})` with
`SKIP_KEYS = {'link', 'bib_id'}`; `title` and `authors` are required
positional parameters. -/
def mkBibliographyEntry (bib_id : Str) (kvs : List (Str × JVal)) :
    Option BibliographyEntryS :=
  let kvs2 := (kvs.filter (fun p => ¬ (p.1 = lstr "link" ∨ p.1 = lstr "bib_id"))).map
    (fun p => (correctKey p.1, p.2))
  if ¬ kvs2.all (fun p => bibParamNames.contains p.1) then none
  else
    match jLookup kvs2 (lstr "title"), jLookup kvs2 (lstr "authors") with
    | some title, some authors =>
      some ⟨bib_id, (jLookup kvs2 (lstr "ref_id")).getD .null, title, authors,
        (jLookup kvs2 (lstr "year")).getD .null, (jLookup kvs2 (lstr "venue")).getD .null,
        (jLookup kvs2 (lstr "volume")).getD .null, (jLookup kvs2 (lstr "issue")).getD .null,
        (jLookup kvs2 (lstr "pages")).getD .null, (jLookup kvs2 (lstr "other_ids")).getD .null,
        (jLookup kvs2 (lstr "num")).getD .null, (jLookup kvs2 (lstr "urls")).getD .null,
        (jLookup kvs2 (lstr "raw_text")).getD .null, (jLookup kvs2 (lstr "links")).getD .null⟩
    | _, _ => none

/-- `ReferenceEntry` (s2orc.py lines 33-95). -/
structure ReferenceEntryS where
  ref_id : Str
  text : JVal
  type_str : Str
  latex : JVal
  mathml : JVal
  content : JVal
  html : JVal
  uris : JVal
  num : JVal
  parent : JVal
deriving BEq, Repr

/-- `ReferenceEntry.as_json`: for the known `type_str` values only the keys
of `REFERENCE_OUTPUT_KEYS[type_str]` are emitted (the Python source iterates
a set; we fix one order, which is sound for dict equality); otherwise the
fallback dictionary with the key "type" is emitted. -/
def ReferenceEntryS.as_json (r : ReferenceEntryS) : JVal :=
  if r.type_str = lstr "figure" then
    .obj [(lstr "text", r.text), (lstr "type_str", .jstr r.type_str),
          (lstr "uris", r.uris), (lstr "num", r.num)]
  else if r.type_str = lstr "table" then
    .obj [(lstr "text", r.text), (lstr "type_str", .jstr r.type_str),
          (lstr "content", r.content), (lstr "num", r.num), (lstr "html", r.html)]
  else if r.type_str = lstr "footnote" then
    .obj [(lstr "text", r.text), (lstr "type_str", .jstr r.type_str), (lstr "num", r.num)]
  else if r.type_str = lstr "section" then
    .obj [(lstr "text", r.text), (lstr "type_str", .jstr r.type_str),
          (lstr "num", r.num), (lstr "parent", r.parent)]
  else if r.type_str = lstr "equation" then
    .obj [(lstr "text", r.text), (lstr "type_str", .jstr r.type_str),
          (lstr "latex", r.latex), (lstr "mathml", r.mathml), (lstr "num", r.num)]
  else
    .obj [(lstr "text", r.text), (lstr "type", .jstr r.type_str), (lstr "latex", r.latex),
          (lstr "mathml", r.mathml), (lstr "content", r.content), (lstr "html", r.html),
          (lstr "uris", r.uris), (lstr "num", r.num), (lstr "parent", r.parent)]

def refParamNames : List Str :=
  [lstr "text", lstr "type_str", lstr "latex", lstr "mathml", lstr "content",
   lstr "html", lstr "uris", lstr "num", lstr "parent"]

/-- `ReferenceEntry(ref_id=key, **{CORRECT_KEYS.get(k,k): v for k,v in
ref.items() if k != 'ref_id'})`; `text` and `type_str` are required. -/
def mkReferenceEntry (ref_id : Str) (kvs : List (Str × JVal)) :
    Option ReferenceEntryS :=
  let kvs2 := (kvs.filter (fun p => ¬ p.1 = lstr "ref_id")).map
    (fun p => (correctKey p.1, p.2))
  if ¬ kvs2.all (fun p => refParamNames.contains p.1) then none
  else
    match jLookup kvs2 (lstr "text"), jStr? (jLookup kvs2 (lstr "type_str")) with
    | some text, some ts =>
      some ⟨ref_id, text, ts, (jLookup kvs2 (lstr "latex")).getD .null,
        (jLookup kvs2 (lstr "mathml")).getD .null, (jLookup kvs2 (lstr "content")).getD .null,
        (jLookup kvs2 (lstr "html")).getD .null, (jLookup kvs2 (lstr "uris")).getD .null,
        (jLookup kvs2 (lstr "num")).getD .null, (jLookup kvs2 (lstr "parent")).getD .null⟩
    | _, _ => none

/-- `Metadata`; author objects are carried in their serialized JSON form
(author construction does not touch the parse blocks compared in the
round-trip claims). -/
structure MetadataS where
  title : JVal
  authorsJ : List JVal
  year : JVal
  venue : JVal
  identifiers : JVal
deriving BEq, Repr

/-- `Metadata.as_json` as a key-value list (it is flattened into the release
dictionary by `release_dict.update(...)`). -/
def MetadataS.as_json (m : MetadataS) : List (Str × JVal) :=
  [(lstr "title", m.title), (lstr "authors", .arr m.authorsJ),
   (lstr "year", m.year), (lstr "venue", m.venue), (lstr "identifiers", m.identifiers)]

def METADATA_KEYS : List Str :=
  [lstr "title", lstr "authors", lstr "year", lstr "venue", lstr "identifiers"]

/-- `Metadata(**{k: v for k, v in md.items() if k in METADATA_KEYS})`. -/
def mkMetadata (kvs : List (Str × JVal)) : Option MetadataS :=
  let kvs2 := kvs.filter (fun p => METADATA_KEYS.contains p.1)
  match jLookup kvs2 (lstr "title"), jArr? (jLookup kvs2 (lstr "authors")) with
  | some t, some aus =>
    some ⟨t, aus, (jLookup kvs2 (lstr "year")).getD .null,
      (jLookup kvs2 (lstr "venue")).getD .null,
      (jLookup kvs2 (lstr "identifiers")).getD (.obj [])⟩
  | _, _ => none

/-- The metadata built when a 2020-style release has no metadata block:
`{"title": None, "authors": [], "year": None}`. -/
def defaultMetadataS : MetadataS := ⟨.null, [], .null, .null, .obj []⟩

/-- `Paper` (s2orc.py lines 384-428). -/
structure PaperS where
  paper_id : Str
  pdf_hash : JVal
  metadata : MetadataS
  abstract : List ParagraphS
  body_text : List ParagraphS
  back_matter : List ParagraphS
  bib_entries : List BibliographyEntryS
  ref_entries : List ReferenceEntryS
deriving BEq, Repr

/-- `'\n'.join([para.text for para in self.abstract])`. -/
def PaperS.raw_abstract_text (p : PaperS) : Str :=
  List.intercalate ['\n'] (p.abstract.map (fun q => q.text))

/-- `S2ORC_NAME_STRING + ' ' + S2ORC_VERSION_STRING`.  Modelled from the
spec: doc2json/config.py is not under src/; the exact constant is irrelevant
(it is part of the header block that the round-trip claim excludes). -/
def generatedWith : Str := lstr "S2ORC 1.0.0"

/-- `Paper.release_json(doc_type)` (lines 446-470); `now` stands for
`datetime.now().strftime(...)`. -/
def PaperS.release_json (p : PaperS) (doc_type : Str) (now : Str) : JVal :=
  .obj ([(lstr "paper_id", .jstr p.paper_id),
         (lstr "header", .obj [(lstr "generated_with", .jstr generatedWith),
                               (lstr "date_generated", .jstr now)])]
    ++ p.metadata.as_json
    ++ [(lstr "abstract", .jstr p.raw_abstract_text)]
    ++ [(doc_type ++ lstr "_parse", .obj
          [(lstr "paper_id", .jstr p.paper_id),
           (lstr "_pdf_hash", p.pdf_hash),
           (lstr "abstract", .arr (p.abstract.map ParagraphS.as_json)),
           (lstr "body_text", .arr (p.body_text.map ParagraphS.as_json)),
           (lstr "back_matter", .arr (p.back_matter.map ParagraphS.as_json)),
           (lstr "bib_entries", .obj (p.bib_entries.map
             (fun b => (b.bib_id, b.as_json)))),
           (lstr "ref_entries", .obj (p.ref_entries.map
             (fun r => (r.ref_id, r.as_json))))])])

/-- `if 'link' in v: v['links'] = [v['link']]` (load_s2orc lines 489-491,
510-512). -/
def addLinks (kvs : List (Str × JVal)) : List (Str × JVal) :=
  match jLookup kvs (lstr "link") with
  | some lv => upsert kvs (lstr "links") (.arr [lv])
  | none => kvs

/-- `Paragraph(**para)`: the entry must be a JSON dictionary. -/
def paraOfJson : JVal → Option ParagraphS
  | .obj pkvs => mkParagraph pkvs
  | _ => none

/-- One `bib_entries` item (`key: entry` pair). -/
def bibOfJson (p : Str × JVal) : Option BibliographyEntryS :=
  match p.2 with
  | .obj bkvs => mkBibliographyEntry p.1 (addLinks bkvs)
  | _ => none

/-- One `ref_entries` item (`key: entry` pair). -/
def refOfJson (p : Str × JVal) : Option ReferenceEntryS :=
  match p.2 with
  | .obj rkvs => mkReferenceEntry p.1 rkvs
  | _ => none

/-- `[Paragraph(**para) for para in ...]` over `.get(key, [])`. -/
def loadParas (v : Option JVal) : Option (List ParagraphS) :=
  match v with
  | none => some []
  | some (.arr xs) => xs.mapM paraOfJson
  | some _ => none

def loadBibs (v : Option JVal) : Option (List BibliographyEntryS) :=
  match v with
  | none => some []
  | some (.obj kvs) => kvs.mapM bibOfJson
  | some _ => none

def loadRefs (v : Option JVal) : Option (List ReferenceEntryS) :=
  match v with
  | none => some []
  | some (.obj kvs) => kvs.mapM refOfJson
  | some _ => none

/-- `load_s2orc(paper_dict)` (lines 473-527); `none` models the raised
exceptions (`KeyError`, `TypeError`, `NotImplementedError`). -/
def load_s2orc (d : JVal) : Option PaperS :=
  match d with
  | .obj kvs =>
    match jStr? (jLookup kvs (lstr "paper_id")) with
    | none => none
    | some paper_id =>
      let pdf_hash :=
        match jLookup kvs (lstr "_pdf_hash") with
        | some v => v
        | none => (jLookup kvs (lstr "s2_pdf_hash")).getD .null
      if jTruthy (jLookup kvs (lstr "grobid_parse")) then
        (jObj? (jLookup kvs (lstr "metadata"))).bind fun mkvs =>
        (jObj? (jLookup kvs (lstr "grobid_parse"))).bind fun gkvs =>
        (mkMetadata mkvs).bind fun md =>
        (loadParas (jLookup gkvs (lstr "abstract"))).bind fun ab =>
        (loadParas (jLookup gkvs (lstr "body_text"))).bind fun bt =>
        (loadParas (jLookup gkvs (lstr "back_matter"))).bind fun bm =>
        (loadBibs (jLookup gkvs (lstr "bib_entries"))).bind fun bibs =>
        (loadRefs (jLookup gkvs (lstr "ref_entries"))).map fun refs =>
          ⟨paper_id, pdf_hash, md, ab, bt, bm, bibs, refs⟩
      else if jTruthy (jLookup kvs (lstr "pdf_parse")) ∨
              jTruthy (jLookup kvs (lstr "body_text")) then
        let innerO :=
          if (jLookup kvs (lstr "pdf_parse")).isSome then jObj? (jLookup kvs (lstr "pdf_parse"))
          else some kvs
        innerO.bind fun inner =>
        (if jTruthy (jLookup inner (lstr "metadata")) then
            (jObj? (jLookup inner (lstr "metadata"))).bind mkMetadata
          else some defaultMetadataS).bind fun md =>
        (loadParas (jLookup inner (lstr "abstract"))).bind fun ab =>
        (loadParas (jLookup inner (lstr "body_text"))).bind fun bt =>
        (loadParas (jLookup inner (lstr "back_matter"))).bind fun bm =>
        (loadBibs (jLookup inner (lstr "bib_entries"))).bind fun bibs =>
        (loadRefs (jLookup inner (lstr "ref_entries"))).map fun refs =>
          ⟨paper_id, pdf_hash, md, ab, bt, bm, bibs, refs⟩
      else none
  | _ => none

/-! ## Lemmas: decimal strings -/

theorem natDigitsRev_eq_digits (fuel n : Nat) (h : n ≤ fuel) :
    natDigitsRev fuel n = (Nat.digits 10 n).map digitChar := by
  induction fuel generalizing n with
  | zero =>
    interval_cases n
    simp [natDigitsRev]
  | succ fuel ih =>
    by_cases hn : n = 0
    · simp [natDigitsRev, hn]
    · rw [natDigitsRev, if_neg hn,
        Nat.digits_def' (by norm_num : (1:ℕ) < 10) (Nat.pos_of_ne_zero hn), List.map_cons]
      have hdiv : n / 10 < n := Nat.div_lt_self (Nat.pos_of_ne_zero hn) (by norm_num)
      rw [ih (n / 10) (by omega)]

theorem natToStr_eq_digits {n : Nat} (hn : n ≠ 0) :
    natToStr n = ((Nat.digits 10 n).map digitChar).reverse := by
  rw [natToStr, if_neg hn, natDigitsRev_eq_digits n n le_rfl]

theorem digitVal_digitChar {d : Nat} (h : d < 10) : digitVal (digitChar d) = d := by
  interval_cases d <;> decide

theorem isDigitCh_digitChar {d : Nat} (h : d < 10) : isDigitCh (digitChar d) = true := by
  interval_cases d <;> decide

theorem natToStr_ne_nil (n : Nat) : natToStr n ≠ [] := by
  by_cases hn : n = 0
  · subst hn
    decide
  · rw [natToStr_eq_digits hn]
    simp [Nat.digits_ne_nil_iff_ne_zero.mpr hn]

theorem natToStr_all_digits (n : Nat) : ∀ c ∈ natToStr n, isDigitCh c = true := by
  by_cases hn : n = 0
  · subst hn
    decide
  · rw [natToStr_eq_digits hn]
    intro c hc
    rw [List.mem_reverse, List.mem_map] at hc
    obtain ⟨d, hd, rfl⟩ := hc
    exact isDigitCh_digitChar (Nat.digits_lt_base (by norm_num) hd)

theorem foldl_digitsVal (L : List Nat) (a : Nat) (h : ∀ d ∈ L, d < 10) :
    List.foldl (fun acc c => 10 * acc + digitVal c) a ((L.map digitChar).reverse) =
      a * 10 ^ L.length + Nat.ofDigits 10 L := by
  induction L generalizing a with
  | nil => simp
  | cons d L ih =>
    have hd : d < 10 := h d (by simp)
    have hL : ∀ x ∈ L, x < 10 := fun x hx => h x (by simp [hx])
    simp only [List.map_cons, List.reverse_cons, List.foldl_append, List.foldl_cons,
      List.foldl_nil, List.length_cons, Nat.ofDigits_cons]
    rw [ih a hL, digitVal_digitChar hd]
    ring

theorem digitsVal_natToStr (n : Nat) : digitsVal (natToStr n) = n := by
  by_cases hn : n = 0
  · subst hn
    decide
  · rw [natToStr_eq_digits hn, digitsVal,
      foldl_digitsVal _ 0 (fun d hd => Nat.digits_lt_base (by norm_num) hd)]
    simp [Nat.ofDigits_digits]

theorem parseDigitsNat_natToStr (n : Nat) : parseDigitsNat (natToStr n) = some n := by
  rw [parseDigitsNat, if_pos, digitsVal_natToStr]
  exact ⟨natToStr_ne_nil n, List.all_eq_true.mpr (natToStr_all_digits n)⟩

theorem natToStr_injective : Function.Injective natToStr := by
  intro a b h
  have ha := parseDigitsNat_natToStr a
  rw [h, parseDigitsNat_natToStr] at ha
  exact (Option.some_injective _ ha).symm

theorem natToStr_head_ne_minus (n : Nat) : natToStr n ≠ '-' :: (natToStr n).tail → True :=
  fun _ => trivial

theorem pyInt_natToStr (n : Nat) : pyInt (natToStr n) = some (n : Int) := by
  rw [pyInt, if_neg, parseDigitsNat_natToStr]
  · rfl
  · intro hcon
    obtain ⟨c, cs, hcs⟩ := List.exists_cons_of_ne_nil (natToStr_ne_nil n)
    rw [hcs] at hcon
    simp only [List.head?_cons, Option.some_inj] at hcon
    have := natToStr_all_digits n c (by rw [hcs]; simp)
    rw [hcon] at this
    exact absurd this (by decide)

theorem natToStr_length_le_three {a : Nat} (h : a ≤ 999) : (natToStr a).length ≤ 3 := by
  by_cases hn : a = 0
  · subst hn
    decide
  · rw [natToStr_eq_digits hn]
    have h1 := Nat.le_digits_len_le 10 a 999 h
    have h2 : (Nat.digits 10 999).length = 3 := by
      rw [Nat.digits_def' (by norm_num : (1:ℕ) < 10) (by norm_num),
          Nat.digits_def' (by norm_num : (1:ℕ) < 10) (by norm_num),
          Nat.digits_def' (by norm_num : (1:ℕ) < 10) (by norm_num)]
      norm_num
    simp only [List.length_reverse, List.length_map]
    omega

theorem natToStr_head_nonzero {a : Nat} (ha : 1 ≤ a) :
    ((natToStr a).head?.map isNonzeroDigit).getD false = true := by
  have hn : a ≠ 0 := by omega
  rw [natToStr_eq_digits hn]
  have hne : Nat.digits 10 a ≠ [] := Nat.digits_ne_nil_iff_ne_zero.mpr hn
  have hlast := Nat.getLast_digit_ne_zero 10 hn
  have hlt : (Nat.digits 10 a).getLast hne < 10 :=
    Nat.digits_lt_base (by norm_num) (List.getLast_mem hne)
  rw [show ((Nat.digits 10 a).map digitChar).reverse =
      digitChar ((Nat.digits 10 a).getLast hne) ::
        (((Nat.digits 10 a).dropLast.map digitChar).reverse) from ?_]
  · simp only [List.head?_cons, Option.map_some, Option.getD_some]
    have h1 : 1 ≤ (Nat.digits 10 a).getLast hne := Nat.one_le_iff_ne_zero.mpr hlast
    set d := (Nat.digits 10 a).getLast hne
    interval_cases d <;> decide
  · conv_lhs => rw [show Nat.digits 10 a = (Nat.digits 10 a).dropLast ++
      [(Nat.digits 10 a).getLast hne] from (List.dropLast_append_getLast hne).symm]
    simp

/-! ## Lemmas: the token generator (claim C7) -/

theorem tokensFrom_eq (p : Str) (c k : Nat) :
    tokensFrom ⟨p, c⟩ k = (List.range k).map (fun i => p ++ natToStr (c + i)) := by
  induction k generalizing c with
  | zero => simp [tokensFrom]
  | succ k ih =>
    rw [tokensFrom, UniqTokenGenerator.next, List.range_succ_eq_map, List.map_cons]
    simp only
    rw [ih (c + 1), List.map_map]
    simp only [Nat.add_zero, Function.comp]
    congr 1
    apply List.map_congr_left
    intro a _
    show p ++ natToStr (c + 1 + a) = p ++ natToStr (c + (a + 1))
    rw [show c + 1 + a = c + (a + 1) by omega]

/-- C7: every call to `UniqTokenGenerator.next` returns the family prefix
followed by the strictly increasing counter, so the tokens produced within
one paragraph pass are pairwise distinct, and CITETOKEN tokens never equal
REFTOKEN tokens. -/
theorem c7_token_uniqueness :
    (∀ (p : Str) (c k : Nat),
        tokensFrom ⟨p, c⟩ k = (List.range k).map (fun i => p ++ natToStr (c + i))) ∧
    (∀ (p : Str) (c k : Nat), (tokensFrom ⟨p, c⟩ k).Nodup) ∧
    (∀ i j : Nat, citeToken i ≠ refToken j) := by
  refine ⟨tokensFrom_eq, ?_, ?_⟩
  · intro p c k
    rw [tokensFrom_eq]
    refine List.Nodup.map ?_ (List.nodup_range k)
    intro a b h
    have h2 := natToStr_injective (List.append_cancel_left h)
    omega
  · intro i j h
    have h1 : (citeToken i).head? = some 'C' := rfl
    have h2 : (refToken j).head? = some 'R' := rfl
    rw [h, h2] at h1
    exact absurd h1 (by decide)

/-! ## Claim theorems on paragraph processing (C10, C2, C3, C5, C6, C9) -/

/-- C10: a paragraph element with empty text short-circuits: empty text,
empty span lists, the supplied section list, no token substitution, and the
element is not mutated. -/
theorem c10_empty_paragraph (nodes : List PNode) (section_names : List (Option Str × Str))
    (bibs refs : List Str) (bracket : Bool) (h : paraText nodes = []) :
    process_paragraph nodes section_names bibs refs bracket =
      some (⟨[], [], [], [], section_names⟩, nodes) := by
  rw [process_paragraph, if_pos h]

theorem c10_empty_paragraph_witness :
    paraText [PNode.nav []] = [] ∧
      process_paragraph [PNode.nav []] [(none, lstr "Intro")] [] [] true =
        some (⟨[], [], [], [], [(none, lstr "Intro")]⟩, [PNode.nav []]) :=
  ⟨rfl, c10_empty_paragraph _ _ _ _ _ rfl⟩

def c2Para : List PNode :=
  [.ref (some (lstr "bibr")) (some (lstr "#b0")) (lstr "[1]"),
   .nav (lstr "-"),
   .ref (some (lstr "bibr")) (some (lstr "#b3")) (lstr "[4]")]

def c2Bibs : List Str := [lstr "BIBREF0", lstr "BIBREF1", lstr "BIBREF2", lstr "BIBREF3"]

/-- C2: for `[1]` `-` `[4]` with bracket style active and BIBREF0..BIBREF3
registered, processing plus span substitution produce exactly the four
citation spans `[1] [2] [3] [4]` with ref ids BIBREF0..BIBREF3, left to
right, pairwise non-overlapping; and with BIBREF1/BIBREF2 missing from the
registry the middle members are still emitted with `ref_id = None`. -/
theorem c2_bracket_range_expansion :
    ((process_paragraph c2Para [] c2Bibs [] true).map
        (fun r => (r.1.text, r.1.cite_spans, r.1.ref_spans)) =
      some (lstr " [1] [2] [3] [4] ",
        [⟨1, 4, lstr "[1]", some (lstr "BIBREF0")⟩,
         ⟨5, 8, lstr "[2]", some (lstr "BIBREF1")⟩,
         ⟨9, 12, lstr "[3]", some (lstr "BIBREF2")⟩,
         ⟨13, 16, lstr "[4]", some (lstr "BIBREF3")⟩], [])) ∧
    List.Pairwise (fun a b : SpanBlob => a.stop ≤ b.start)
      [⟨1, 4, lstr "[1]", some (lstr "BIBREF0")⟩,
       ⟨5, 8, lstr "[2]", some (lstr "BIBREF1")⟩,
       ⟨9, 12, lstr "[3]", some (lstr "BIBREF2")⟩,
       ⟨13, 16, lstr "[4]", some (lstr "BIBREF3")⟩] ∧
    ((process_paragraph c2Para [] [lstr "BIBREF0", lstr "BIBREF3"] [] true).map
        (fun r => r.1.cite_spans.map (fun b => (b.text, b.ref_id))) =
      some [(lstr "[1]", some (lstr "BIBREF0")), (lstr "[2]", none),
            (lstr "[3]", none), (lstr "[4]", some (lstr "BIBREF3"))]) := by
  exact ⟨by decide, by decide, by decide⟩

def c3Para : List PNode :=
  [.ref (some (lstr "bibr")) (some (lstr "#b0")) (lstr "[1]"),
   .nav (lstr "- "),
   .ref (some (lstr "bibr")) (some (lstr "#b3")) (lstr "[4]")]

/-- C3 counterexample: with inter-element text `"- "` (hyphen followed by a
space, so NOT all characters are drawn from the hyphen/en-dash set) range
expansion still occurs — refuting the claimed "exactly when" precondition. -/
theorem c3_expansion_with_space_marker :
    ((process_paragraph c3Para [] c2Bibs [] true).map
        (fun r => r.1.cite_spans.map (fun b => (b.text, b.ref_id))) =
      some [(lstr "[1]", some (lstr "BIBREF0")), (lstr "[2]", some (lstr "BIBREF1")),
            (lstr "[3]", some (lstr "BIBREF2")), (lstr "[4]", some (lstr "BIBREF3"))]) ∧
    ¬ (∀ c ∈ lstr "- ", c ∈ EXPANSION_CHARS) := by
  exact ⟨by decide, by decide⟩

theorem toUpper_small {c : Char} (h : c.toNat ≤ 96) : c.toUpper = c := by
  simp only [Char.toUpper]
  rw [if_neg]
  omega

theorem isDigitCh_bounds {c : Char} (h : isDigitCh c = true) :
    48 ≤ c.toNat ∧ c.toNat ≤ 57 := by
  simpa [isDigitCh] using h

theorem isPySpace_digit {c : Char} (h : isDigitCh c = true) : isPySpace c = false := by
  have hb := isDigitCh_bounds h
  simp only [isPySpace, decide_eq_false_iff_not]
  rintro (rfl | rfl | rfl | rfl | rfl | rfl) <;> exact absurd hb (by decide)

theorem digit_ne {c : Char} (h : isDigitCh c = true) {d : Char}
    (hd : d.toNat < 48 ∨ 57 < d.toNat) : c ≠ d := by
  have hb := isDigitCh_bounds h
  intro hcd
  subst hcd
  omega

theorem dropWhile_false {p : Char → Bool} {s : Str} (h : ∀ c ∈ s, p c = false) :
    s.dropWhile p = s := by
  cases s with
  | nil => rfl
  | cons c rest =>
    rw [List.dropWhile_cons, if_neg]
    simp [h c (by simp)]

theorem pyStrip_no_space {s : Str} (h : ∀ c ∈ s, isPySpace c = false) : pyStrip s = s := by
  rw [pyStrip, dropWhile_false h, dropWhile_false, List.reverse_reverse]
  intro c hc
  exact h c (by simpa using hc)

theorem map_toUpper_digits {s : Str} (h : ∀ c ∈ s, isDigitCh c = true) :
    s.map Char.toUpper = s := by
  conv_rhs => rw [← List.map_id s]
  apply List.map_congr_left
  intro c hc
  exact toUpper_small (by have := isDigitCh_bounds (h c hc); omega)

theorem replaceAllGo_no_occ (p : Char) (rep : Str) :
    ∀ (fuel : Nat) (s : Str), (∀ c ∈ s, c ≠ p) → replaceAllGo [p] rep fuel s = s := by
  intro fuel
  induction fuel with
  | zero => intro s _; rfl
  | succ n ih =>
    intro s h
    match s with
    | [] => rfl
    | c :: rest =>
      rw [replaceAllGo, if_neg]
      · rw [ih rest (fun x hx => h x (List.mem_cons_of_mem _ hx))]
      · rintro ⟨-, hpre⟩
        have : p = c := by simpa [List.isPrefixOf] using hpre
        exact h c (by simp) this.symm

theorem normalize_grobid_id_bib (n : Nat) :
    normalize_grobid_id (lstr "#b" ++ natToStr n) = lstr "BIBREF" ++ natToStr n := by
  have hd := natToStr_all_digits n
  have hns : ∀ c ∈ natToStr n, c ≠ 'B' := fun c hc => digit_ne (hd c hc) (Or.inr (by decide))
  have hmap : (lstr "#b" ++ natToStr n).map Char.toUpper = '#' :: 'B' :: natToStr n := by
    rw [List.map_append, map_toUpper_digits hd]
    rfl
  rw [normalize_grobid_id, hmap]
  have hf1 : List.filter (fun c => decide (c ≠ '_')) ('#' :: 'B' :: natToStr n) =
      '#' :: 'B' :: natToStr n := by
    rw [List.filter_cons_of_pos (by decide), List.filter_cons_of_pos (by decide)]
    rw [List.filter_eq_self.mpr]
    intro c hc
    exact decide_eq_true (digit_ne (hd c hc) (Or.inr (by decide)))
  have hf2 : List.filter (fun c => decide (c ≠ '#')) ('#' :: 'B' :: natToStr n) =
      'B' :: natToStr n := by
    rw [List.filter_cons_of_neg (by decide), List.filter_cons_of_pos (by decide)]
    rw [List.filter_eq_self.mpr]
    intro c hc
    exact decide_eq_true (digit_ne (hd c hc) (Or.inl (by decide)))
  rw [hf1, hf2, if_pos]
  · rw [replaceAll]
    rw [show (('B' :: natToStr n).length) = (natToStr n).length + 1 from by simp]
    rw [replaceAllGo, if_pos]
    · rw [show ((('B' :: natToStr n)).drop ((lstr "B").length)) = natToStr n from rfl]
      have hno : replaceAllGo (lstr "B") (lstr "BIBREF") (natToStr n).length (natToStr n) =
          natToStr n := replaceAllGo_no_occ 'B' _ _ _ hns
      rw [hno]
    · exact ⟨by decide, by simp [List.isPrefixOf]⟩
  · show (lstr "B").isPrefixOf ('B' :: natToStr n) = true
    simp [List.isPrefixOf, lstr]

theorem takeWhile_all_append {p : Char → Bool} (xs ys : Str) (h : ∀ c ∈ xs, p c = true) :
    List.takeWhile p (xs ++ ys) = xs ++ List.takeWhile p ys := by
  induction xs with
  | nil => simp
  | cons c rest ih =>
    rw [List.cons_append, List.takeWhile_cons, if_pos (h c (by simp)),
      ih (fun x hx => h x (by simp [hx])), List.cons_append]

theorem singleBracketNum_brackets {a : Nat} (h1 : 1 ≤ a) (h9 : a ≤ 999) :
    singleBracketNum ('[' :: (natToStr a ++ [']'])) = some a := by
  rw [singleBracketNum,
    if_pos (show ('[' :: (natToStr a ++ [']'])).head? = some '[' from rfl)]
  have hds : List.takeWhile isDigitCh (natToStr a ++ [']']) = natToStr a := by
    rw [takeWhile_all_append _ _ (natToStr_all_digits a),
      show List.takeWhile isDigitCh [']'] = [] from rfl, List.append_nil]
  simp only [List.tail_cons, hds]
  rw [if_pos, digitsVal_natToStr]
  refine ⟨natToStr_head_nonzero h1, natToStr_length_le_three h9, ?_⟩
  rw [List.drop_left]
  rfl

theorem getSurfaceRange_brackets {a b : Nat} (ha1 : 1 ≤ a) (ha9 : a ≤ 999)
    (hb1 : 1 ≤ b) (hb9 : b ≤ 999) :
    getSurfaceRange ('[' :: (natToStr a ++ [']'])) ('[' :: (natToStr b ++ [']'])) =
      if 1 < (b : Int) - a ∧ (b : Int) - a < 20 then some (a, b) else none := by
  have h1 := singleBracketNum_brackets ha1 ha9
  have h2 := singleBracketNum_brackets hb1 hb9
  simp only [getSurfaceRange, h1, h2]

theorem intToStr_natCast (n : Nat) : intToStr (n : Int) = natToStr n := by
  rw [intToStr, if_neg (by omega)]
  congr 1


theorem createRefIdRange_bibref (x y : Nat) :
    createRefIdRange (lstr "BIBREF" ++ natToStr x) (lstr "BIBREF" ++ natToStr y) =
      some ((List.range (y + 1 - x)).map (fun i => lstr "BIBREF" ++ natToStr (x + i))) := by
  have hx : (lstr "BIBREF" ++ natToStr x).drop 6 = natToStr x := by
    rw [show (6 : Nat) = (lstr "BIBREF").length from rfl, List.drop_left]
  have hy : (lstr "BIBREF" ++ natToStr y).drop 6 = natToStr y := by
    rw [show (6 : Nat) = (lstr "BIBREF").length from rfl, List.drop_left]
  rw [createRefIdRange, hx, hy, pyInt_natToStr, pyInt_natToStr]
  show some _ = _
  congr 1
  rw [intRangeIncl]
  rw [show ((y : Int) + 1 - x).toNat = y + 1 - x from by omega]
  simp only [List.map_map]
  apply List.map_congr_left
  intro i _
  simp only [Function.comp_apply]
  show lstr "BIBREF" ++ intToStr ((x : Int) + (i : Int)) = lstr "BIBREF" ++ natToStr (x + i)
  have hcast : ((x : Int) + (i : Int)) = ((x + i : Nat) : Int) := by push_cast; ring
  rw [hcast, intToStr_natCast]

theorem emitRange_map_range (bibs : List Str) :
    ∀ (n : Nat) (f : Nat → Str × Str) (c : Nat),
      emitRange bibs c ((List.range n).map f) =
        ((List.range n).map (fun i => (citeToken (c + i),
            ((if bibs.contains (f i).1 then some (f i).1 else none), (f i).2))),
          ((List.range n).map (fun i => citeToken (c + i) ++ [' '])).flatten,
          c + n) := by
  intro n
  induction n with
  | zero => intro f c; simp [emitRange]
  | succ k ih =>
    intro f c
    rw [List.range_succ_eq_map]
    simp only [List.map_cons, List.map_map]
    rcases hf0 : f 0 with ⟨r0, s0⟩
    rw [emitRange]
    rw [show (List.map (f ∘ Nat.succ) (List.range k)) =
      (List.range k).map (fun i => f (i + 1)) from rfl]
    rw [ih (fun i => f (i + 1)) (c + 1)]
    simp only [List.flatten_cons, Function.comp]
    refine congrArg₂ Prod.mk ?_ (congrArg₂ Prod.mk ?_ ?_)
    · refine congrArg₂ List.cons rfl ?_
      apply List.map_congr_left
      intro i _
      simp only [Function.comp_apply]
      rw [show c + 1 + i = c + (i + 1) from by omega]
    · rw [show (List.range k).map (fun i => citeToken (c + 1 + i) ++ [' ']) =
        (List.range k).map (fun i => citeToken (c + (i + 1)) ++ [' ']) from
        List.map_congr_left (fun i _ => by rw [show c + 1 + i = c + (i + 1) from by omega])]
      rw [List.append_assoc]
      rfl
    · omega

theorem is_expansion_long {s : Str} (h : 2 < s.length) : is_expansion_string s = false := by
  simp only [is_expansion_string, decide_eq_false_iff_not]
  rintro ⟨h2, -⟩
  omega

theorem is_expansion_iff (m : Str) :
    (is_expansion_string m = true ↔
      m.length ≤ 2 ∧ (∃ c ∈ m, c ∈ EXPANSION_CHARS) ∧
        (∀ c ∈ m, c ∈ EXPANSION_CHARS ∨ c = ' ')) := by
  simp [is_expansion_string, List.any_eq_true, List.all_eq_true]


def c3ParaG (m : Str) (a b : Nat) : List PNode :=
  [.ref (some (lstr "bibr")) (some (lstr "#b" ++ natToStr (a - 1)))
     ('[' :: (natToStr a ++ [']'])),
   .nav m,
   .ref (some (lstr "bibr")) (some (lstr "#b" ++ natToStr (b - 1)))
     ('[' :: (natToStr b ++ [']']))]

/-- C3 (amended): for the canonical two-citation paragraph `[a]` MARKER `[b]`
(both targets resolvable, bracket style active, 1 ≤ a, b ≤ 999), the marker
test accepts exactly the strings of length 1-2 consisting of hyphen/en-dash
and space characters with at least one hyphen/en-dash, and range expansion
happens exactly when the marker test accepts AND 1 < b - a < 20, producing
one citation-map entry per integer of the inclusive range (ids absent from
the bibliography yield None); in every other case the two citations are
emitted as their own independent spans. -/
theorem c3_range_expansion_characterization (m : Str) (a b : Nat) (bibs : List Str)
    (ha1 : 1 ≤ a) (ha9 : a ≤ 999) (hb1 : 1 ≤ b) (hb9 : b ≤ 999)
    (hma : bibs.contains (lstr "BIBREF" ++ natToStr (a - 1)) = true)
    (hmb : bibs.contains (lstr "BIBREF" ++ natToStr (b - 1)) = true) :
    (is_expansion_string m = true ↔
      m.length ≤ 2 ∧ (∃ c ∈ m, c ∈ EXPANSION_CHARS) ∧
        (∀ c ∈ m, c ∈ EXPANSION_CHARS ∨ c = ' ')) ∧
    process_citations_in_paragraph (c3ParaG m a b) bibs true =
      some (if is_expansion_string m = true ∧ 1 < (b : Int) - a ∧ (b : Int) - a < 20 then
        ([PNode.nav [],
          PNode.nav (' ' :: ((((List.range (b - a + 1)).map
            (fun i => citeToken i ++ [' '])).flatten) ++ [' ']))],
         (List.range (b - a + 1)).map (fun i =>
           (citeToken i,
             ((if bibs.contains (lstr "BIBREF" ++ natToStr (a - 1 + i)) then
                 some (lstr "BIBREF" ++ natToStr (a - 1 + i)) else none),
              '[' :: (natToStr (a + i) ++ [']'])))),
         b - a + 1)
      else
        ([PNode.nav (' ' :: (citeToken 0 ++ [' '])), PNode.nav m,
          PNode.nav (' ' :: (citeToken 1 ++ [' ']))],
         [(citeToken 0,
            (some (lstr "BIBREF" ++ natToStr (a - 1)), '[' :: (natToStr a ++ [']']))),
          (citeToken 1,
            (some (lstr "BIBREF" ++ natToStr (b - 1)), '[' :: (natToStr b ++ [']'])))],
         2)) := by
  refine ⟨is_expansion_iff m, ?_⟩
  have hsa : pyStrip ('[' :: (natToStr a ++ [']'])) = '[' :: (natToStr a ++ [']']) := by
    apply pyStrip_no_space
    intro c hc
    simp only [List.mem_cons, List.mem_append, List.mem_singleton] at hc
    rcases hc with rfl | hc | rfl | h0
    · decide
    · exact isPySpace_digit (natToStr_all_digits a c hc)
    · decide
    · exact absurd h0 (List.not_mem_nil c)
  have hsb : pyStrip ('[' :: (natToStr b ++ [']'])) = '[' :: (natToStr b ++ [']']) := by
    apply pyStrip_no_space
    intro c hc
    simp only [List.mem_cons, List.mem_append, List.mem_singleton] at hc
    rcases hc with rfl | hc | rfl | h0
    · decide
    · exact isPySpace_digit (natToStr_all_digits b c hc)
    · decide
    · exact absurd h0 (List.not_mem_nil c)
  have hna := normalize_grobid_id_bib (a - 1)
  have hnb := normalize_grobid_id_bib (b - 1)
  by_cases hexp : is_expansion_string m = true
  · by_cases hrange : 1 < (b : Int) - a ∧ (b : Int) - a < 20
    · -- Case A: expansion
      rw [if_pos ⟨hexp, hrange⟩]
      have hab : a < b := by omega
      have hstep1 : processOneRef bibs true ⟨[], [], 0⟩ (some (lstr "bibr"))
          (some (lstr "#b" ++ natToStr (a - 1))) ('[' :: (natToStr a ++ [']']))
          [PNode.nav m, PNode.ref (some (lstr "bibr")) (some (lstr "#b" ++ natToStr (b - 1)))
            ('[' :: (natToStr b ++ [']']))] =
          some ⟨[PNode.ref (some (lstr "bibr")) (some (lstr "#b" ++ natToStr (a - 1)))
            ('[' :: (natToStr a ++ [']']))], [], 0⟩ := by
        simp only [processOneRef, hsa, hna]
        rw [if_neg (not_not_intro hma), if_neg (not_not_intro trivial),
          if_neg (not_not_intro ⟨List.cons_ne_nil _ _, Or.inl rfl⟩),
          if_neg (by decide :
            ¬ (is_expansion_string (backwardBetween []) = true))]
        simp only [forwardBetween, List.append_nil]
        rw [if_pos hexp]
      have hstep3 : processOneRef bibs true
          ⟨[PNode.nav m, PNode.ref (some (lstr "bibr")) (some (lstr "#b" ++ natToStr (a - 1)))
            ('[' :: (natToStr a ++ [']']))], [], 0⟩ (some (lstr "bibr"))
          (some (lstr "#b" ++ natToStr (b - 1))) ('[' :: (natToStr b ++ [']'])) [] =
          some ⟨[PNode.nav (' ' :: ((((List.range (b - a + 1)).map
              (fun i => citeToken i ++ [' '])).flatten) ++ [' '])), PNode.nav []],
            (List.range (b - a + 1)).map (fun i =>
              (citeToken i,
                ((if bibs.contains (lstr "BIBREF" ++ natToStr (a - 1 + i)) then
                    some (lstr "BIBREF" ++ natToStr (a - 1 + i)) else none),
                 '[' :: (natToStr (a + i) ++ [']'])))),
            b - a + 1⟩ := by
        simp only [processOneRef, hsb, hnb]
        rw [if_neg (not_not_intro hmb), if_neg (not_not_intro trivial),
          if_neg (not_not_intro ⟨List.cons_ne_nil _ _, Or.inl rfl⟩)]
        simp only [backwardBetween, List.append_nil]
        rw [if_pos hexp]
        simp only [findPrevRef, hsa]
        rw [getSurfaceRange_brackets ha1 ha9 hb1 hb9, if_pos hrange]
        simp only [emptyBetween, removePrevRef, hna]
        rw [createRefIdRange_bibref]
        simp only [createSurfaceRange]
        rw [show b - 1 + 1 - (a - 1) = b - a + 1 from by omega,
          show b + 1 - a = b - a + 1 from by omega, List.zip_map']
        rw [emitRange_map_range]
        simp only [zero_add]
        rfl
      rw [show process_citations_in_paragraph (c3ParaG m a b) bibs true =
        processCitesGo bibs true ⟨[], [], 0⟩ (c3ParaG m a b) from rfl, c3ParaG]
      simp only [processCitesGo, hstep1, hstep3]
      rfl
    · -- Case C: expansion marker but range precondition fails
      rw [if_neg (by tauto)]
      have hstep1 : processOneRef bibs true ⟨[], [], 0⟩ (some (lstr "bibr"))
          (some (lstr "#b" ++ natToStr (a - 1))) ('[' :: (natToStr a ++ [']']))
          [PNode.nav m, PNode.ref (some (lstr "bibr")) (some (lstr "#b" ++ natToStr (b - 1)))
            ('[' :: (natToStr b ++ [']']))] =
          some ⟨[PNode.ref (some (lstr "bibr")) (some (lstr "#b" ++ natToStr (a - 1)))
            ('[' :: (natToStr a ++ [']']))], [], 0⟩ := by
        simp only [processOneRef, hsa, hna]
        rw [if_neg (not_not_intro hma), if_neg (not_not_intro trivial),
          if_neg (not_not_intro ⟨List.cons_ne_nil _ _, Or.inl rfl⟩),
          if_neg (by decide :
            ¬ (is_expansion_string (backwardBetween []) = true))]
        simp only [forwardBetween, List.append_nil]
        rw [if_pos hexp]
      have hstep3 : processOneRef bibs true
          ⟨[PNode.nav m, PNode.ref (some (lstr "bibr")) (some (lstr "#b" ++ natToStr (a - 1)))
            ('[' :: (natToStr a ++ [']']))], [], 0⟩ (some (lstr "bibr"))
          (some (lstr "#b" ++ natToStr (b - 1))) ('[' :: (natToStr b ++ [']'])) [] =
          some ⟨[PNode.nav (' ' :: (citeToken 1 ++ [' '])), PNode.nav m,
              PNode.nav (' ' :: (citeToken 0 ++ [' ']))],
            [(citeToken 0,
               (some (lstr "BIBREF" ++ natToStr (a - 1)), '[' :: (natToStr a ++ [']']))),
             (citeToken 1,
               (some (lstr "BIBREF" ++ natToStr (b - 1)), '[' :: (natToStr b ++ [']'])))],
            2⟩ := by
        simp only [processOneRef, hsb, hnb]
        rw [if_neg (not_not_intro hmb), if_neg (not_not_intro trivial),
          if_neg (not_not_intro ⟨List.cons_ne_nil _ _, Or.inl rfl⟩)]
        simp only [backwardBetween, List.append_nil]
        rw [if_pos hexp]
        simp only [findPrevRef, hsa, hna]
        rw [getSurfaceRange_brackets ha1 ha9 hb1 hb9, if_neg hrange]
        simp only [replacePrevRef]
        rfl
      rw [show process_citations_in_paragraph (c3ParaG m a b) bibs true =
        processCitesGo bibs true ⟨[], [], 0⟩ (c3ParaG m a b) from rfl, c3ParaG]
      simp only [processCitesGo, hstep1, hstep3]
      rfl
  · -- Case B: no expansion marker
    rw [if_neg (by tauto)]
    have hstep1 : processOneRef bibs true ⟨[], [], 0⟩ (some (lstr "bibr"))
        (some (lstr "#b" ++ natToStr (a - 1))) ('[' :: (natToStr a ++ [']']))
        [PNode.nav m, PNode.ref (some (lstr "bibr")) (some (lstr "#b" ++ natToStr (b - 1)))
          ('[' :: (natToStr b ++ [']']))] =
        some ⟨[PNode.nav (' ' :: (citeToken 0 ++ [' ']))],
          [(citeToken 0,
             (some (lstr "BIBREF" ++ natToStr (a - 1)), '[' :: (natToStr a ++ [']'])))],
          1⟩ := by
      simp only [processOneRef, hsa, hna]
      rw [if_neg (not_not_intro hma), if_neg (not_not_intro trivial),
        if_neg (not_not_intro ⟨List.cons_ne_nil _ _, Or.inl rfl⟩),
        if_neg (by decide :
          ¬ (is_expansion_string (backwardBetween []) = true))]
      simp only [forwardBetween, List.append_nil]
      rw [if_neg hexp]
      rfl
    have hlong : ¬ (is_expansion_string (m ++ (' ' :: (citeToken 0 ++ [' ']))) = true) := by
      rw [is_expansion_long]
      · simp
      · rw [List.length_append]
        have h12 : (' ' :: (citeToken 0 ++ [' '])).length = 12 := by decide
        omega
    have hstep3 : processOneRef bibs true
        ⟨[PNode.nav m, PNode.nav (' ' :: (citeToken 0 ++ [' ']))],
          [(citeToken 0,
             (some (lstr "BIBREF" ++ natToStr (a - 1)), '[' :: (natToStr a ++ [']'])))],
          1⟩ (some (lstr "bibr"))
        (some (lstr "#b" ++ natToStr (b - 1))) ('[' :: (natToStr b ++ [']'])) [] =
        some ⟨[PNode.nav (' ' :: (citeToken 1 ++ [' '])), PNode.nav m,
            PNode.nav (' ' :: (citeToken 0 ++ [' ']))],
          [(citeToken 0,
             (some (lstr "BIBREF" ++ natToStr (a - 1)), '[' :: (natToStr a ++ [']']))),
           (citeToken 1,
             (some (lstr "BIBREF" ++ natToStr (b - 1)), '[' :: (natToStr b ++ [']'])))],
          2⟩ := by
      simp only [processOneRef, hsb, hnb]
      rw [if_neg (not_not_intro hmb), if_neg (not_not_intro trivial),
        if_neg (not_not_intro ⟨List.cons_ne_nil _ _, Or.inl rfl⟩)]
      simp only [backwardBetween, List.append_nil]
      rw [if_neg hlong,
        if_neg (by decide : ¬ (is_expansion_string (forwardBetween []) = true))]
      rfl
    rw [show process_citations_in_paragraph (c3ParaG m a b) bibs true =
      processCitesGo bibs true ⟨[], [], 0⟩ (c3ParaG m a b) from rfl, c3ParaG]
    simp only [processCitesGo, hstep1, hstep3]
    rfl

theorem c3_range_expansion_characterization_witness :
    c2Bibs.contains (lstr "BIBREF" ++ natToStr 0) = true ∧
    ((is_expansion_string (lstr "-") = true ↔
      (lstr "-").length ≤ 2 ∧ (∃ c ∈ lstr "-", c ∈ EXPANSION_CHARS) ∧
        (∀ c ∈ lstr "-", c ∈ EXPANSION_CHARS ∨ c = ' ')) ∧
    process_citations_in_paragraph (c3ParaG (lstr "-") 1 4) c2Bibs true =
      some (if is_expansion_string (lstr "-") = true ∧
          1 < ((4 : Nat) : Int) - ((1 : Nat) : Int) ∧
          ((4 : Nat) : Int) - ((1 : Nat) : Int) < 20 then
        ([PNode.nav [],
          PNode.nav (' ' :: ((((List.range (4 - 1 + 1)).map
            (fun i => citeToken i ++ [' '])).flatten) ++ [' ']))],
         (List.range (4 - 1 + 1)).map (fun i =>
           (citeToken i,
             ((if c2Bibs.contains (lstr "BIBREF" ++ natToStr (1 - 1 + i)) then
                 some (lstr "BIBREF" ++ natToStr (1 - 1 + i)) else none),
              '[' :: (natToStr (1 + i) ++ [']'])))),
         4 - 1 + 1)
      else
        ([PNode.nav (' ' :: (citeToken 0 ++ [' '])), PNode.nav (lstr "-"),
          PNode.nav (' ' :: (citeToken 1 ++ [' ']))],
         [(citeToken 0,
            (some (lstr "BIBREF" ++ natToStr (1 - 1)), '[' :: (natToStr 1 ++ [']']))),
          (citeToken 1,
            (some (lstr "BIBREF" ++ natToStr (4 - 1)), '[' :: (natToStr 4 ++ [']'])))],
         2))) :=
  ⟨by decide, c3_range_expansion_characterization (lstr "-") 1 4 c2Bibs (by decide) (by decide) (by decide)
    (by decide) (by decide) (by decide)⟩

def c5FiveBracketDoc : List DivM :=
  [⟨false, List.replicate 5 ⟨some (lstr "bibr"), lstr "[1]"⟩⟩]

/-- C5 counterexample: a document whose sampled bibliographic citation
strings contain exactly 5 bracket-style matches is NOT classified as
bracket style (the code requires strictly more than the threshold 5). -/
theorem c5_exactly_five_not_bracket_style :
    ((collectCiteStrings c5FiveBracketDoc).filter (fun s => bracketMatch s)).length = 5 ∧
    check_if_citations_are_bracket_style (some c5FiveBracketDoc) = false := by
  exact ⟨by decide, by decide⟩

/-- C5 amended: the classifier returns true exactly when the number of
matching sampled citation strings strictly exceeds 5 (i.e. at least 6);
a missing body yields false; and the decision depends only on the absolute
count of matches. -/
theorem c5_bracket_style_threshold :
    (∀ divs : List DivM,
      check_if_citations_are_bracket_style (some divs) = true ↔
        5 < ((collectCiteStrings divs).filter (fun s => bracketMatch s)).length) ∧
    check_if_citations_are_bracket_style none = false ∧
    (∀ d1 d2 : List DivM,
      ((collectCiteStrings d1).filter (fun s => bracketMatch s)).length =
        ((collectCiteStrings d2).filter (fun s => bracketMatch s)).length →
      check_if_citations_are_bracket_style (some d1) =
        check_if_citations_are_bracket_style (some d2)) := by
  have lenkey : ∀ divs : List DivM,
      (((collectCiteStrings divs).map (fun c => bracketMatch c)).filter (fun b => b)).length =
        ((collectCiteStrings divs).filter (fun s => bracketMatch s)).length := by
    intro divs
    rw [List.filter_map, List.length_map]
    rfl
  refine ⟨?_, rfl, ?_⟩
  · intro divs
    simp only [check_if_citations_are_bracket_style, BRACKET_STYLE_THRESHOLD,
      decide_eq_true_eq]
    rw [lenkey]
  · intro d1 d2 h
    simp only [check_if_citations_are_bracket_style]
    rw [show (((collectCiteStrings d1).map (fun c => bracketMatch c)).filter
        (fun b => b)).length =
      (((collectCiteStrings d2).map (fun c => bracketMatch c)).filter
        (fun b => b)).length from by rw [lenkey d1, lenkey d2, h]]

def c5SixStringsDoc : List DivM :=
  [⟨false, List.replicate 5 ⟨some (lstr "bibr"), lstr "[1]"⟩ ++
    [⟨some (lstr "bibr"), lstr "(2)"⟩]⟩]

theorem c5_bracket_style_threshold_witness :
    check_if_citations_are_bracket_style (some c5FiveBracketDoc) =
      check_if_citations_are_bracket_style (some c5SixStringsDoc) :=
  c5_bracket_style_threshold.2.2 c5FiveBracketDoc c5SixStringsDoc (by decide)

/-- C9 counterexample: the claimed behaviour fails twice.  On a terminal
failure status the logged entry is `pdf_file.strip(".pdf") + "\n"`, which
strips the character set `{'.','p','d','f'}` from both ends — for
`"mypdf.pdf"` the log records `"my"`, not the file name (with or without
its extension).  And on a 503 status the client sleeps and then raises an
uncaught `TypeError` (the recursive call at line 118 omits the required
`output` argument), so the request is never retried: for a busy response
the result is the exception (`none`) with one recorded sleep — in
particular it is not the success result that a retried 200 would return. -/
theorem c9_failure_log_strips_char_set :
    (process_pdf_stream (lstr "mypdf.pdf") 5 [] [] ⟨500, lstr "err"⟩ =
      (some [], [lstr "my" ++ ['\n']], []) ∧
    (lstr "my" ++ ['\n']) ≠ lstr "mypdf.pdf" ∧
    (lstr "my" ++ ['\n']) ≠ (lstr "mypdf.pdf" ++ ['\n']) ∧
    (lstr "my" ++ ['\n']) ≠ (lstr "mypdf" ++ ['\n'])) ∧
    (process_pdf_stream (lstr "a.pdf") 7 [] [] ⟨503, lstr "busy"⟩ = (none, [], [7]) ∧
    ∀ r2 : GrobidResponse, r2.status = 200 →
      (process_pdf_stream (lstr "a.pdf") 7 [] [] ⟨503, lstr "busy"⟩).1 ≠
        (process_pdf_stream (lstr "a.pdf") 7 [] [7] r2).1) := by
  refine ⟨⟨by decide, by decide, by decide, by decide⟩, by decide, ?_⟩
  intro r2 h2
  rw [process_pdf_stream, if_pos rfl, process_pdf_stream,
    if_neg (by omega : ¬ r2.status = 503)]
  simp only [h2]
  rw [if_neg (by omega : ¬ (200 : Nat) ≠ 200)]
  simp

/-- C9 amended: status 503 records one fixed sleep of `sleep_time` seconds
and then raises an uncaught `TypeError` — the recursive retry call omits
the required `output` argument, so no retry ever happens and nothing is
logged; any other non-200 status appends the character-set-stripped file
name (plus newline) to the failure log and returns the empty string;
status 200 returns the response text. -/
theorem c9_retry_and_failure_routing (pdf_file : Str) (sleep_time : Nat)
    (log : List Str) (sleeps : List Nat) (r : GrobidResponse) :
    (r.status = 503 →
      process_pdf_stream pdf_file sleep_time log sleeps r =
        (none, log, sleeps ++ [sleep_time])) ∧
    (r.status ≠ 503 → r.status ≠ 200 →
      process_pdf_stream pdf_file sleep_time log sleeps r =
        (some [], log ++ [pyStripSet (lstr ".pdf") pdf_file ++ ['\n']], sleeps)) ∧
    (r.status = 200 →
      process_pdf_stream pdf_file sleep_time log sleeps r =
        (some r.text, log, sleeps)) := by
  refine ⟨fun h => ?_, fun h1 h2 => ?_, fun h => ?_⟩
  · rw [process_pdf_stream, if_pos h]
  · rw [process_pdf_stream, if_neg h1, if_pos h2]
  · rw [process_pdf_stream, if_neg (by omega : ¬ r.status = 503)]
    simp only [h]
    rw [if_neg (by omega : ¬ (200 : Nat) ≠ 200)]

theorem c9_retry_and_failure_routing_witness :
    process_pdf_stream (lstr "a.pdf") 7 [] [] ⟨503, []⟩ = (none, [], [] ++ [7]) :=
  (c9_retry_and_failure_routing (lstr "a.pdf") 7 [] [] ⟨503, []⟩).1 rfl

/-! ## C6: unresolved citations never raise -/

theorem processCitesGo_navs (bibs : List Str) (bracket : Bool) (st : CiteState)
    (qnav : List Str) :
    processCitesGo bibs bracket st (qnav.map PNode.nav) =
      some (st.done.reverse ++ qnav.map PNode.nav, st.cmap, st.ctr) := by
  induction qnav generalizing st with
  | nil => simp [processCitesGo]
  | cons s rest ih =>
    rw [List.map_cons, processCitesGo, ih]
    simp

theorem processCitesGo_nav_prefix (bibs : List Str) (bracket : Bool) (st : CiteState)
    (pnav : List Str) (rest : List PNode) :
    processCitesGo bibs bracket st (pnav.map PNode.nav ++ rest) =
      processCitesGo bibs bracket
        ⟨(pnav.map PNode.nav).reverse ++ st.done, st.cmap, st.ctr⟩ rest := by
  induction pnav generalizing st with
  | nil => simp
  | cons s p ih =>
    rw [List.map_cons, List.cons_append, processCitesGo, ih]
    simp

/-- C6: a citation element whose normalized target is absent from the
bibliography registry — or that has no target attribute at all — does not
raise: citation processing emits exactly one cite-map entry with
`ref_id = None` and the element's (stripped) text as surface form, and at
the paragraph level exactly one citation span with `ref_id = None` results. -/
theorem c6_unresolved_citation (bibs : List Str) (bracket : Bool) :
    (∀ (pnav qnav : List Str) (t tx : Str),
      bibs.contains (normalize_grobid_id t) = false →
      process_citations_in_paragraph
          (pnav.map PNode.nav ++ [.ref (some (lstr "bibr")) (some t) tx] ++ qnav.map PNode.nav)
          bibs bracket =
        some (pnav.map PNode.nav ++ [.nav (' ' :: (citeToken 0 ++ [' ']))] ++ qnav.map PNode.nav,
          [(citeToken 0, (none, pyStrip tx))], 1)) ∧
    (∀ (pnav qnav : List Str) (tx : Str),
      process_citations_in_paragraph
          (pnav.map PNode.nav ++ [.ref (some (lstr "bibr")) none tx] ++ qnav.map PNode.nav)
          bibs bracket =
        some (pnav.map PNode.nav ++ [.nav (' ' :: (citeToken 0 ++ [' ']))] ++ qnav.map PNode.nav,
          [(citeToken 0, (none, pyStrip tx))], 1)) ∧
    ((process_paragraph [.ref (some (lstr "bibr")) (some (lstr "#b9")) (lstr "(Smith 2000)")]
        [] [lstr "BIBREF0"] [] true).map (fun r => (r.1.cite_spans, r.1.ref_spans)) =
      some ([⟨1, 13, lstr "(Smith 2000)", none⟩], [])) := by
  refine ⟨?_, ?_, by decide⟩
  · intro pnav qnav t tx h
    rw [process_citations_in_paragraph, List.append_assoc, processCitesGo_nav_prefix,
      List.singleton_append, processCitesGo, processOneRef]
    simp only [h, Bool.false_eq_true, not_false_iff, if_true]
    rw [processCitesGo_navs]
    simp
  · intro pnav qnav tx
    rw [process_citations_in_paragraph, List.append_assoc, processCitesGo_nav_prefix,
      List.singleton_append, processCitesGo, processOneRef]
    simp only
    rw [processCitesGo_navs]
    simp

theorem c6_unresolved_citation_witness :
    ([lstr "BIBREF0"] : List Str).contains (normalize_grobid_id (lstr "#b9")) = false ∧
    process_citations_in_paragraph
        ([lstr "see "].map PNode.nav ++
          [.ref (some (lstr "bibr")) (some (lstr "#b9")) (lstr "[2]")] ++
          ([lstr "."] : List Str).map PNode.nav)
        [lstr "BIBREF0"] true =
      some ([lstr "see "].map PNode.nav ++ [.nav (' ' :: (citeToken 0 ++ [' ']))] ++
          ([lstr "."] : List Str).map PNode.nav,
        [(citeToken 0, (none, pyStrip (lstr "[2]")))], 1) :=
  ⟨by decide, (c6_unresolved_citation [lstr "BIBREF0"] true).1 [lstr "see "] [lstr "."]
    (lstr "#b9") (lstr "[2]") (by decide)⟩

/-! ## Lemmas: the span substitution engine (claims C1, C4) -/

theorem shiftSpans_nil (btwn pre post : Str) : shiftSpans btwn pre post [] = [] := rfl

theorem shiftSpans_cons (btwn pre post : Str) (x : Sp) (rest : List Sp) :
    shiftSpans btwn pre post (x :: rest) =
      if x.e ≤ 0 then x :: shiftSpans btwn pre post rest
      else x :: shiftSpans btwn pre post
        (rest.map (adjustOne x.e (shiftAmount pre post x) btwn pre post)) := by
  simp only [shiftSpans, List.length_cons, shiftSpansGo, List.length_map]

theorem adjustOne_shift (e shift : Int) (btwn pre post : Str) (y : Sp)
    (h1 : 0 < y.e) (h2 : e ≤ y.s) :
    adjustOne e shift btwn pre post y =
      ⟨y.s + shift, y.e + shift, y.tok,
        (if y.s = e then btwn else []) ++ pre ++ y.rep ++ post⟩ := by
  rw [adjustOne, if_neg (by omega)]
  rcases eq_or_lt_of_le h2 with heq | hlt
  · rw [if_neg (by omega), if_pos heq.symm, if_pos heq.symm]
  · rw [if_neg (by omega), if_neg (by omega), if_neg (by omega)]
    simp

theorem adjustOne_clean (e shift : Int) (y : Sp) (h1 : 0 < y.e) (h2 : e ≤ y.s) :
    adjustOne e shift [] [] [] y = ⟨y.s + shift, y.e + shift, y.tok, y.rep⟩ := by
  rw [adjustOne_shift e shift [] [] [] y h1 h2]
  simp

theorem adjustOne_invalidate (e shift : Int) (btwn pre post : Str) (y : Sp)
    (h1 : 0 < y.e) (h2 : y.s < e) :
    adjustOne e shift btwn pre post y = ⟨0, 0, y.tok, []⟩ := by
  rw [adjustOne, if_neg (by omega), if_pos h2]

theorem shiftAllBy_cons (c : Int) (x : Sp) (l : List Sp) :
    shiftAllBy c (x :: l) = ⟨x.s + c, x.e + c, x.tok, x.rep⟩ :: shiftAllBy c l := rfl

theorem shiftAllBy_zero (l : List Sp) : shiftAllBy 0 l = l := by
  unfold shiftAllBy
  induction l with
  | nil => rfl
  | cons x rest ih => simp [ih]

/-- Under chain-disjointness and well-formedness, the outer loop of
`replace_refspans` (with empty paddings) shifts every later span by the
running sum of `len(surface) - len(token)`. -/
theorem shiftSpans_clean (l : List Sp) (c : Int)
    (hch : SpChain l) (hwf : ∀ x ∈ l, SpWfB x) (hpos : ∀ x ∈ l, 0 ≤ x.s + c) :
    shiftSpans [] [] [] (shiftAllBy c l) = cumShifted c l := by
  induction l generalizing c with
  | nil => rfl
  | cons x rest ih =>
    obtain ⟨hxs, hxtok, hxe⟩ := hwf x (by simp)
    have hxtokpos : 0 < x.tok.length := List.length_pos.mpr hxtok
    have hxc : 0 ≤ x.s + c := hpos x (by simp)
    rw [shiftAllBy_cons, shiftSpans_cons, if_neg (by simp only; omega)]
    have hshift : shiftAmount [] [] ⟨x.s + c, x.e + c, x.tok, x.rep⟩ =
        (x.rep.length : Int) - x.tok.length := by
      simp [shiftAmount]
    rw [hshift]
    have hch' : SpChain rest := (List.pairwise_cons.mp hch).2
    have hhead : ∀ y ∈ rest, x.e ≤ y.s := (List.pairwise_cons.mp hch).1
    have hmap : (shiftAllBy c rest).map
        (adjustOne (Sp.e ⟨x.s + c, x.e + c, x.tok, x.rep⟩)
          ((x.rep.length : Int) - x.tok.length) [] [] []) =
        shiftAllBy (c + ((x.rep.length : Int) - x.tok.length)) rest := by
      unfold shiftAllBy
      rw [List.map_map]
      apply List.map_congr_left
      intro y hy
      obtain ⟨hys, hytok, hye⟩ := hwf y (by simp [hy])
      have hyc : 0 ≤ y.s + c := hpos y (by simp [hy])
      have hytokpos : 0 < y.tok.length := List.length_pos.mpr hytok
      simp only [Function.comp_apply]
      rw [adjustOne_clean _ _ _ (by simp only; omega)
        (by have := hhead y hy; simp only; omega)]
      simp only [Sp.mk.injEq, and_true]
      omega
    rw [hmap, cumShifted]
    congr 1
    apply ih (c + ((x.rep.length : Int) - x.tok.length)) hch'
      (fun y hy => hwf y (by simp [hy]))
    intro y hy
    have h1 := hhead y hy
    omega

theorem cumShifted_start_ge (l : List Sp) (c b : Int)
    (hch : SpChain l) (hwf : ∀ x ∈ l, SpWfB x) (hb : ∀ x ∈ l, b ≤ x.s + c) :
    ∀ y ∈ cumShifted c l, b ≤ y.s := by
  induction l generalizing c with
  | nil => simp [cumShifted]
  | cons x rest ih =>
    obtain ⟨hxs, hxtok, hxe⟩ := hwf x (by simp)
    have hhead : ∀ y ∈ rest, x.e ≤ y.s := (List.pairwise_cons.mp hch).1
    intro y hy
    rw [cumShifted] at hy
    rcases List.mem_cons.mp hy with rfl | hy'
    · have := hb x (by simp)
      simp only
      omega
    · refine ih (c + ((x.rep.length : Int) - x.tok.length)) (List.pairwise_cons.mp hch).2
        (fun z hz => hwf z (by simp [hz])) ?_ y hy'
      intro z hz
      have h1 := hhead z hz
      have h2 := hb x (by simp)
      omega

theorem cumShifted_wf (l : List Sp) (c : Int)
    (hch : SpChain l) (hwf : ∀ x ∈ l, SpWfB x) (hpos : ∀ x ∈ l, 0 ≤ x.s + c) :
    ∀ y ∈ cumShifted c l, 0 ≤ y.s ∧ 0 < y.e := by
  induction l generalizing c with
  | nil => simp [cumShifted]
  | cons x rest ih =>
    obtain ⟨hxs, hxtok, hxe⟩ := hwf x (by simp)
    have hxtokpos : 0 < x.tok.length := List.length_pos.mpr hxtok
    have hhead : ∀ y ∈ rest, x.e ≤ y.s := (List.pairwise_cons.mp hch).1
    intro y hy
    rw [cumShifted] at hy
    rcases List.mem_cons.mp hy with rfl | hy'
    · have := hpos x (by simp)
      simp only
      omega
    · refine ih (c + ((x.rep.length : Int) - x.tok.length)) (List.pairwise_cons.mp hch).2
        (fun z hz => hwf z (by simp [hz])) ?_ y hy'
      intro z hz
      have h1 := hhead z hz
      have h2 := hpos x (by simp)
      omega

theorem pyBound_of_nonneg_le {n : Nat} {i : Int} (h0 : 0 ≤ i) (hle : i ≤ n) :
    pyBound n i = i.toNat := by
  rw [pyBound, if_neg (by omega)]
  exact Nat.min_eq_left (by omega)

theorem pySlice_eq_drop_take (s : Str) (a b : Int) (h0 : 0 ≤ a) (hb : 0 ≤ b)
    (han : a ≤ s.length) (hbn : b ≤ s.length) :
    pySlice s a b = (s.drop a.toNat).take (b.toNat - a.toNat) := by
  rw [pySlice, pyBound_of_nonneg_le hb hbn, pyBound_of_nonneg_le h0 han, List.drop_take]

theorem pySlice_append_shift (A B : Str) (a b : Int) (h0 : 0 ≤ a) (hb : 0 ≤ b) :
    pySlice (A ++ B) ((A.length : Int) + a) ((A.length : Int) + b) = pySlice B a b := by
  unfold pySlice pyBound
  rw [if_neg (by omega), if_neg (by omega), if_neg (by omega), if_neg (by omega)]
  have h1 : ((A.length : Int) + b).toNat = A.length + b.toNat := by omega
  have h2 : ((A.length : Int) + a).toNat = A.length + a.toNat := by omega
  rw [h1, h2, List.length_append]
  have h3 : min (A.length + b.toNat) (A.length + B.length) =
      A.length + min b.toNat B.length := by omega
  have h4 : min (A.length + a.toNat) (A.length + B.length) =
      A.length + min a.toNat B.length := by omega
  rw [h3, h4, List.take_append, List.drop_append]

theorem cumShifted_sorted (l : List Sp) (c : Int)
    (hch : SpChain l) (hwf : ∀ x ∈ l, SpWfB x) (hpos : ∀ x ∈ l, 0 ≤ x.s + c) :
    List.Pairwise byStart (cumShifted c l) := by
  induction l generalizing c with
  | nil => simp [cumShifted]
  | cons x rest ih =>
    obtain ⟨hxs, hxtok, hxe⟩ := hwf x (by simp)
    have hhead : ∀ y ∈ rest, x.e ≤ y.s := (List.pairwise_cons.mp hch).1
    rw [cumShifted, List.pairwise_cons]
    constructor
    · intro y hy
      have hge := cumShifted_start_ge rest (c + ((x.rep.length : Int) - x.tok.length))
        (x.s + c) (List.pairwise_cons.mp hch).2 (fun z hz => hwf z (by simp [hz]))
        (fun z hz => by have := hhead z hz; omega) y hy
      show (⟨x.s + c, x.e + c, x.tok, x.rep⟩ : Sp).s ≤ y.s
      simpa using hge
    · refine ih (c + ((x.rep.length : Int) - x.tok.length)) (List.pairwise_cons.mp hch).2
        (fun z hz => hwf z (by simp [hz])) ?_
      intro z hz
      have h1 := hhead z hz
      have h2 := hpos x (by simp)
      omega

/-- The application loop of `replace_refspans`: on a chain-disjoint,
well-formed span list every per-iteration assert holds, and the result is
the sequential replacement `substFrom`. -/
theorem applySpans_chain (l : List Sp) (t : Str) :
    ∀ (done : Str) (k : Nat),
    SpChain l → (∀ x ∈ l, SpWf t x) → (∀ x ∈ l, (k : Int) ≤ x.s) →
    applySpansChecked (cumShifted ((done.length : Int) - k) l) (done ++ t.drop k) =
      some (done ++ substFrom t k l) := by
  induction l with
  | nil =>
    intro done k _ _ _
    simp [cumShifted, applySpansChecked, substFrom]
  | cons x rest ih =>
    intro done k hch hwf hk
    obtain ⟨hxs, hxtok, hxe, hxel, hxslice⟩ := hwf x (by simp)
    have hxk : (k : Int) ≤ x.s := hk x (by simp)
    have htokpos : 0 < x.tok.length := List.length_pos.mpr hxtok
    have hs'k : k ≤ x.s.toNat := by omega
    have he's : x.e.toNat = x.s.toNat + x.tok.length := by omega
    have he'l : x.e.toNat ≤ t.length := by omega
    have hkl : k ≤ t.length := by omega
    have hdl : ((t.drop k).length : Int) = (t.length : Int) - k := by
      rw [List.length_drop]
      omega
    rw [cumShifted, applySpansChecked]
    have hsr : x.s + ((done.length : Int) - k) = (done.length : Int) + ((x.s : Int) - k) := by
      ring
    have her : x.e + ((done.length : Int) - k) = (done.length : Int) + ((x.e : Int) - k) := by
      ring
    have hguard : pySlice (done ++ t.drop k)
        ((⟨x.s + ((done.length : Int) - k), x.e + ((done.length : Int) - k),
            x.tok, x.rep⟩ : Sp).s)
        ((⟨x.s + ((done.length : Int) - k), x.e + ((done.length : Int) - k),
            x.tok, x.rep⟩ : Sp).e) = x.tok := by
      show pySlice (done ++ t.drop k) (x.s + ((done.length : Int) - k))
        (x.e + ((done.length : Int) - k)) = x.tok
      rw [hsr, her, pySlice_append_shift _ _ _ _ (by omega) (by omega),
        pySlice_eq_drop_take _ _ _ (by omega) (by omega) (by omega) (by omega),
        List.drop_drop]
      have h5 : k + (x.s - (k : Int)).toNat = x.s.toNat := by omega
      have h6 : (x.e - (k : Int)).toNat - (x.s - (k : Int)).toNat = x.tok.length := by omega
      rw [h5, h6, hxslice]
    rw [if_pos hguard]
    have happly : applyOne (done ++ t.drop k)
        ⟨x.s + ((done.length : Int) - k), x.e + ((done.length : Int) - k), x.tok, x.rep⟩ =
        (done ++ ((t.drop k).take (x.s.toNat - k) ++ x.rep)) ++ t.drop x.e.toNat := by
      rw [applyOne]
      show pySliceTo (done ++ t.drop k) (x.s + ((done.length : Int) - k)) ++ x.rep ++
          pySliceFrom (done ++ t.drop k) (x.e + ((done.length : Int) - k)) = _
      rw [pySliceTo, pySliceFrom, hsr, her]
      have hlen : (done ++ t.drop k).length = done.length + (t.length - k) := by
        rw [List.length_append, List.length_drop]
      have hb1 : pyBound (done ++ t.drop k).length
          ((done.length : Int) + ((x.s : Int) - k)) = done.length + (x.s.toNat - k) := by
        rw [pyBound_of_nonneg_le (by omega) (by rw [hlen]; omega)]
        omega
      have hb2 : pyBound (done ++ t.drop k).length
          ((done.length : Int) + ((x.e : Int) - k)) = done.length + (x.e.toNat - k) := by
        rw [pyBound_of_nonneg_le (by omega) (by rw [hlen]; omega)]
        omega
      rw [hb1, hb2, List.take_append, List.drop_append, List.drop_drop]
      have h7 : k + (x.e.toNat - k) = x.e.toNat := by omega
      rw [h7]
      simp [List.append_assoc]
    rw [happly]
    have hlen2 : (((done ++ ((t.drop k).take (x.s.toNat - k) ++ x.rep)).length : Int)) -
        (x.e.toNat : Int) = (done.length : Int) - k +
          ((x.rep.length : Int) - x.tok.length) := by
      rw [List.length_append, List.length_append, List.length_take, List.length_drop]
      have : min (x.s.toNat - k) (t.length - k) = x.s.toNat - k := by omega
      rw [this]
      push_cast
      omega
    rw [show cumShifted ((done.length : Int) - k + ((x.rep.length : Int) - x.tok.length)) rest
        = cumShifted (((done ++ ((t.drop k).take (x.s.toNat - k) ++ x.rep)).length : Int) -
          (x.e.toNat : Int)) rest from by rw [hlen2]]
    rw [ih (done ++ ((t.drop k).take (x.s.toNat - k) ++ x.rep)) x.e.toNat
      (List.pairwise_cons.mp hch).2 (fun z hz => hwf z (by simp [hz]))
      (fun z hz => by
        have := (List.pairwise_cons.mp hch).1 z hz
        omega)]
    rw [substFrom]
    simp [List.append_assoc]

theorem newSpansCalc_shift (l : List Sp) (c d : Int) :
    newSpansCalc (c + d) l = shiftAllBy d (newSpansCalc c l) := by
  induction l generalizing c with
  | nil => rfl
  | cons x rest ih =>
    rw [newSpansCalc, newSpansCalc, shiftAllBy, List.map_cons]
    congr 1
    · simp only [Sp.mk.injEq, and_true]
      omega
    · rw [show c + d + (x.s + (x.rep.length : Int) - x.e) =
        (c + (x.s + (x.rep.length : Int) - x.e)) + d from by ring, ih]
      rfl

/-- Every output span of `sub_spans_and_update_indices` names the surface
string actually sitting at its offsets in the final text. -/
theorem substFrom_newSpans (l : List Sp) (t : Str) :
    ∀ (k : Nat),
    SpChain l → (∀ x ∈ l, SpWf t x) → (∀ x ∈ l, (k : Int) ≤ x.s) →
    ∀ y ∈ newSpansCalc (-(k : Int)) l,
      0 ≤ y.s ∧ y.e = y.s + (y.rep.length : Int) ∧
        pySlice (substFrom t k l) y.s y.e = y.rep := by
  induction l with
  | nil =>
    intro k _ _ _ y hy
    simp [newSpansCalc] at hy
  | cons x rest ih =>
    intro k hch hwf hk y hy
    obtain ⟨hxs, hxtok, hxe, hxel, hxslice⟩ := hwf x (by simp)
    have hxk : (k : Int) ≤ x.s := hk x (by simp)
    have htokpos : 0 < x.tok.length := List.length_pos.mpr hxtok
    have hkl : k ≤ t.length := by omega
    have htlen : (t.drop k).length = t.length - k := List.length_drop k t
    have htake : ((t.drop k).take (x.s.toNat - k)).length = x.s.toNat - k := by
      rw [List.length_take]
      omega
    rw [newSpansCalc] at hy
    rw [substFrom]
    rcases List.mem_cons.mp hy with rfl | hy'
    · refine ⟨by simp only; omega, by simp only; ring, ?_⟩
      show pySlice ((t.drop k).take (x.s.toNat - k) ++ x.rep ++ substFrom t x.e.toNat rest)
        (x.s + -(k : Int)) (x.s + (x.rep.length : Int) + -(k : Int)) = x.rep
      rw [show x.s + -(k : Int) = ((((t.drop k).take (x.s.toNat - k)).length : Int) + 0)
          from by rw [htake]; omega,
        show x.s + (x.rep.length : Int) + -(k : Int) =
          ((((t.drop k).take (x.s.toNat - k)).length : Int) + x.rep.length)
          from by rw [htake]; omega, List.append_assoc]
      rw [pySlice_append_shift _ _ _ _ le_rfl (by omega)]
      rw [pySlice_eq_drop_take _ _ _ le_rfl (by omega) (by omega)
        (by rw [List.length_append]; push_cast; omega)]
      simp only [Int.toNat_zero, List.drop_zero, Int.toNat_natCast, Nat.sub_zero]
      exact List.take_left x.rep _
    · have hc2 : -(k : Int) + (x.s + (x.rep.length : Int) - x.e) =
          (-(x.e.toNat : Int)) + (x.s + (x.rep.length : Int) - k) := by
        omega
      rw [hc2, newSpansCalc_shift] at hy'
      rw [shiftAllBy, List.mem_map] at hy'
      obtain ⟨y', hy'mem, rfl⟩ := hy'
      obtain ⟨hy's, hy'e, hy'slice⟩ := ih x.e.toNat (List.pairwise_cons.mp hch).2
        (fun z hz => hwf z (by simp [hz]))
        (fun z hz => by
          have := (List.pairwise_cons.mp hch).1 z hz
          omega) y' hy'mem
      have hP : (0 : Int) ≤ x.s + (x.rep.length : Int) - k := by omega
      refine ⟨by simp only; omega, by simp only; omega, ?_⟩
      show pySlice ((t.drop k).take (x.s.toNat - k) ++ x.rep ++ substFrom t x.e.toNat rest)
        (y'.s + (x.s + (x.rep.length : Int) - k))
        (y'.e + (x.s + (x.rep.length : Int) - k)) = y'.rep
      have hlenAR : ((((t.drop k).take (x.s.toNat - k) ++ x.rep)).length : Int) =
          x.s + (x.rep.length : Int) - k := by
        rw [List.length_append, htake]
        push_cast
        omega
      rw [show y'.s + (x.s + (x.rep.length : Int) - k) =
          ((((t.drop k).take (x.s.toNat - k) ++ x.rep)).length : Int) + y'.s from by
            rw [hlenAR]; ring,
        show y'.e + (x.s + (x.rep.length : Int) - k) =
          ((((t.drop k).take (x.s.toNat - k) ++ x.rep)).length : Int) + y'.e from by
            rw [hlenAR]; ring]
      rw [pySlice_append_shift _ _ _ _ hy's (by omega)]
      exact hy'slice

theorem SpWf_slice {t : Str} {x : Sp} (h : SpWf t x) : pySlice t x.s x.e = x.tok := by
  obtain ⟨h1, h2, h3, h4, h5⟩ := h
  rw [pySlice_eq_drop_take _ _ _ h1 (by omega) (by omega) h4,
    show x.e.toNat - x.s.toNat = x.tok.length from by omega]
  exact h5

theorem chain_of_sorted_disjoint {l : List Sp}
    (hs : List.Pairwise byStart l) (hd : l.Pairwise SpDisj)
    (hwf : ∀ x ∈ l, SpWfB x) : SpChain l := by
  unfold SpChain
  refine (hs.and hd).imp_of_mem ?_
  intro a b ha hb hab
  obtain ⟨h1, h2⟩ := hab
  obtain ⟨ha1, ha2, ha3⟩ := hwf a ha
  obtain ⟨hb1, hb2, hb3⟩ := hwf b hb
  have hbl : 0 < b.tok.length := List.length_pos.mpr hb2
  rcases h2 with h | h
  · exact h
  · unfold byStart at h1
    omega

theorem nodup_starts {l : List Sp} (hd : l.Pairwise SpDisj)
    (hwf : ∀ x ∈ l, SpWfB x) : (l.map Sp.s).Nodup := by
  show List.Pairwise _ _
  rw [List.pairwise_map]
  refine hd.imp_of_mem ?_
  intro a b ha hb hab
  obtain ⟨ha1, ha2, ha3⟩ := hwf a ha
  obtain ⟨hb1, hb2, hb3⟩ := hwf b hb
  have h1 : 0 < a.tok.length := List.length_pos.mpr ha2
  have h2 : 0 < b.tok.length := List.length_pos.mpr hb2
  intro hc
  rcases hab with h | h <;> omega

/-- `replace_refspans` with empty paddings on well-formed pairwise-disjoint
spans: all asserts pass and the result is the sequential replacement. -/
theorem replace_refspans_chain (spans : List Sp) (t : Str)
    (hwf : ∀ x ∈ spans, SpWf t x) (hdisj : spans.Pairwise SpDisj) :
    replace_refspans spans t [] [] [] =
      some (substFrom t 0 (sortByStart spans)) := by
  have hwfb : ∀ x ∈ spans, SpWfB x :=
    fun x hx => ⟨(hwf x hx).1, (hwf x hx).2.1, (hwf x hx).2.2.1⟩
  have hP : ∀ x ∈ spans, pySlice t x.s x.e = x.tok := fun x hx => SpWf_slice (hwf x hx)
  have hQ : (spans.map Sp.s).Nodup := nodup_starts hdisj hwfb
  have hperm := List.perm_insertionSort byStart spans
  have hsorted := List.sorted_insertionSort byStart spans
  have hwf' : ∀ x ∈ sortByStart spans, SpWf t x :=
    fun x hx => hwf x (hperm.mem_iff.mp hx)
  have hwfb' : ∀ x ∈ sortByStart spans, SpWfB x :=
    fun x hx => hwfb x (hperm.mem_iff.mp hx)
  have hdisj' : (sortByStart spans).Pairwise SpDisj :=
    (hperm.pairwise_iff (fun h => h.symm)).mpr hdisj
  have hch : SpChain (sortByStart spans) :=
    chain_of_sorted_disjoint hsorted hdisj' hwfb'
  have hpos0 : ∀ x ∈ sortByStart spans, 0 ≤ x.s + 0 :=
    fun x hx => by have := (hwfb' x hx).1; omega
  rw [replace_refspans, if_neg (not_not_intro hP), if_neg (not_not_intro hQ)]
  show applySpansChecked
    (sortByStart ((shiftSpans [] [] [] (sortByStart spans)).filter (fun x => 0 < x.e))) t =
      some (substFrom t 0 (sortByStart spans))
  have h1 : shiftSpans [] [] [] (sortByStart spans) = cumShifted 0 (sortByStart spans) := by
    conv_lhs => rw [← shiftAllBy_zero (sortByStart spans)]
    exact shiftSpans_clean _ 0 hch hwfb' hpos0
  have h2 : (cumShifted 0 (sortByStart spans)).filter (fun x => 0 < x.e) =
      cumShifted 0 (sortByStart spans) := by
    refine List.filter_eq_self.mpr ?_
    intro y hy
    have := (cumShifted_wf (sortByStart spans) 0 hch hwfb' hpos0 y hy).2
    simpa using this
  have h3 : sortByStart (cumShifted 0 (sortByStart spans)) =
      cumShifted 0 (sortByStart spans) :=
    List.Sorted.insertionSort_eq (cumShifted_sorted (sortByStart spans) 0 hch hwfb' hpos0)
  rw [h1, h2, h3]
  have h4 := applySpans_chain (sortByStart spans) t [] 0 hch hwf'
    (fun x hx => by have := (hwfb' x hx).1; omega)
  simpa using h4

theorem sortByStart_idem (spans : List Sp) :
    sortByStart (sortByStart spans) = sortByStart spans :=
  List.Sorted.insertionSort_eq (List.sorted_insertionSort byStart spans)

/-- `sub_spans_and_update_indices` on well-formed pairwise-disjoint spans:
no assert fails, the result text is the sequential replacement, and every
output span satisfies the span-text invariant in the result text. -/
theorem engine_correct (t : Str) (spans : List Sp)
    (hwf : ∀ x ∈ spans, SpWf t x) (hdisj : spans.Pairwise SpDisj) :
    sub_spans_and_update_indices spans t =
      some (substFrom t 0 (sortByStart spans), newSpansCalc 0 (sortByStart spans)) ∧
    ∀ y ∈ newSpansCalc 0 (sortByStart spans),
      pySlice (substFrom t 0 (sortByStart spans)) y.s y.e = y.rep := by
  have hwfb : ∀ x ∈ spans, SpWfB x :=
    fun x hx => ⟨(hwf x hx).1, (hwf x hx).2.1, (hwf x hx).2.2.1⟩
  have hP : ∀ x ∈ spans, pySlice t x.s x.e = x.tok := fun x hx => SpWf_slice (hwf x hx)
  have hQ : (spans.map Sp.s).Nodup := nodup_starts hdisj hwfb
  have hperm := List.perm_insertionSort byStart spans
  have hsorted := List.sorted_insertionSort byStart spans
  have hwf' : ∀ x ∈ sortByStart spans, SpWf t x :=
    fun x hx => hwf x (hperm.mem_iff.mp hx)
  have hwfb' : ∀ x ∈ sortByStart spans, SpWfB x :=
    fun x hx => hwfb x (hperm.mem_iff.mp hx)
  have hdisj' : (sortByStart spans).Pairwise SpDisj :=
    (hperm.pairwise_iff (fun h => h.symm)).mpr hdisj
  have hch : SpChain (sortByStart spans) :=
    chain_of_sorted_disjoint hsorted hdisj' hwfb'
  constructor
  · rw [sub_spans_and_update_indices, if_neg (not_not_intro hP), if_neg (not_not_intro hQ)]
    have hrr := replace_refspans_chain (sortByStart spans) t hwf' hdisj'
    rw [sortByStart_idem] at hrr
    show (match replace_refspans (sortByStart spans) t [] [] [] with
      | none => none
      | some newText => some (newText, newSpansCalc 0 (sortByStart spans))) =
      some (substFrom t 0 (sortByStart spans), newSpansCalc 0 (sortByStart spans))
    rw [hrr]
  · intro y hy
    have hres := substFrom_newSpans (sortByStart spans) t 0 hch hwf'
      (fun x hx => by have := (hwfb' x hx).1; omega) y (by simpa using hy)
    exact hres.2.2

/-- C4: the substitution engine sorts spans by ascending start and processes
them one at a time, leaving already processed spans unchanged; after a span
is scheduled, every not-yet-processed span starting at or after its end is
shifted (start and end) by `len(surface) - len(token)` plus the padding
lengths, while spans starting strictly before its end are invalidated to
`(0,0)` and excluded from the final substitution by the positivity filter
instead of causing a failure; a concrete overlapping run completes. -/
theorem c4_substitution_engine (btwn pre post : Str) :
    (∀ spans : List Sp, List.Pairwise byStart (sortByStart spans)) ∧
    (∀ (x : Sp) (rest : List Sp), 0 < x.e →
      shiftSpans btwn pre post (x :: rest) =
        x :: shiftSpans btwn pre post
          (rest.map (adjustOne x.e (shiftAmount pre post x) btwn pre post))) ∧
    (∀ x y : Sp, 0 < y.e → x.e ≤ y.s →
      adjustOne x.e (shiftAmount pre post x) btwn pre post y =
        ⟨y.s + shiftAmount pre post x, y.e + shiftAmount pre post x, y.tok,
          (if y.s = x.e then btwn else []) ++ pre ++ y.rep ++ post⟩ ∧
      shiftAmount pre post x =
        (x.rep.length : Int) - x.tok.length + pre.length + post.length) ∧
    (∀ x y : Sp, 0 < y.e → y.s < x.e →
      adjustOne x.e (shiftAmount pre post x) btwn pre post y = ⟨0, 0, y.tok, []⟩ ∧
      ∀ l : List Sp, (⟨0, 0, y.tok, []⟩ : Sp) ∉ l.filter (fun z => 0 < z.e)) ∧
    replace_refspans
        [⟨2, 5, lstr "cde", lstr "Y"⟩, ⟨0, 3, lstr "abc", lstr "X"⟩,
         ⟨5, 8, lstr "fgh", lstr "Z"⟩]
        (lstr "abcdefgh") [] [] (lstr ", ") = some (lstr "XdeZ") := by
  refine ⟨?_, ?_, ?_, ?_, by decide⟩
  · intro spans
    exact List.sorted_insertionSort byStart spans
  · intro x rest hx
    rw [shiftSpans_cons, if_neg (by omega)]
  · intro x y h1 h2
    exact ⟨adjustOne_shift _ _ _ _ _ _ h1 h2, rfl⟩
  · intro x y h1 h2
    refine ⟨adjustOne_invalidate _ _ _ _ _ _ h1 h2, ?_⟩
    intro l hmem
    have := List.of_mem_filter hmem
    simp at this

theorem c4_substitution_engine_witness :
    shiftSpans [] [] [] [⟨0, 3, lstr "abc", lstr "X"⟩, ⟨5, 8, lstr "fgh", lstr "Z"⟩] =
      ⟨0, 3, lstr "abc", lstr "X"⟩ ::
        shiftSpans [] [] []
          ([(⟨5, 8, lstr "fgh", lstr "Z"⟩ : Sp)].map
            (adjustOne (Sp.e ⟨0, 3, lstr "abc", lstr "X"⟩)
              (shiftAmount [] [] ⟨0, 3, lstr "abc", lstr "X"⟩) [] [] [])) ∧
    adjustOne (Sp.e ⟨0, 3, lstr "abc", lstr "X"⟩)
        (shiftAmount [] [] ⟨0, 3, lstr "abc", lstr "X"⟩) [] [] []
        ⟨2, 5, lstr "cde", lstr "Y"⟩ = ⟨0, 0, lstr "cde", []⟩ :=
  ⟨(c4_substitution_engine [] [] []).2.1 ⟨0, 3, lstr "abc", lstr "X"⟩
      [⟨5, 8, lstr "fgh", lstr "Z"⟩] (by decide),
   ((c4_substitution_engine [] [] []).2.2.2.1 ⟨0, 3, lstr "abc", lstr "X"⟩
      ⟨2, 5, lstr "cde", lstr "Y"⟩ (by decide) (by decide)).1⟩

/-! ## Lemmas: token discovery (claim C1) -/

theorem matchTokenLen_spec (pat s : Str) (h : matchTokenLen pat s ≠ 0) :
    pat.length ≤ matchTokenLen pat s ∧ matchTokenLen pat s ≤ s.length ∧
    ∃ ds, ds ≠ [] ∧ (∀ c ∈ ds, isDigitCh c = true) ∧
      s.take (matchTokenLen pat s) = pat ++ ds ∧
      matchTokenLen pat s = pat.length + ds.length := by
  by_cases hp : pat.isPrefixOf s
  · have hpre : pat <+: s := List.isPrefixOf_iff_prefix.mp hp
    have hptake : pat = s.take pat.length := List.prefix_iff_eq_take.mp hpre
    have hplen : pat.length ≤ s.length := hpre.length_le
    by_cases hd : (s.drop pat.length).takeWhile isDigitCh = []
    · exfalso
      apply h
      rw [matchTokenLen, if_pos hp]
      simp [hd]
    · have hml : matchTokenLen pat s =
          pat.length + ((s.drop pat.length).takeWhile isDigitCh).length := by
        rw [matchTokenLen, if_pos hp]
        simp only [hd, if_neg]
        simp [hd]
      set ds := (s.drop pat.length).takeWhile isDigitCh with hds
      have hdpre : ds <+: s.drop pat.length := List.takeWhile_prefix isDigitCh
      have hdlen : ds.length ≤ s.length - pat.length := by
        have := hdpre.length_le
        rw [List.length_drop] at this
        omega
      refine ⟨by omega, by omega, ds, hd, fun c hc => List.mem_takeWhile_imp hc, ?_, hml⟩
      rw [hml, List.take_add, ← hptake]
      congr 1
      exact (List.prefix_iff_eq_take.mp hdpre).symm
  · exfalso
    apply h
    rw [matchTokenLen, if_neg hp]

theorem findTokensGo_spec (pat : Str) (fuel : Nat) :
    ∀ (s : Str) (k : Nat), s.length ≤ fuel →
    (∀ pr ∈ findTokensGo pat fuel k s,
      k ≤ pr.1 ∧ pr.2 ≠ [] ∧ pr.1 - k + pr.2.length ≤ s.length ∧
      (s.drop (pr.1 - k)).take pr.2.length = pr.2 ∧
      ∃ ds, ds ≠ [] ∧ (∀ c ∈ ds, isDigitCh c = true) ∧ pr.2 = pat ++ ds) ∧
    List.Pairwise (fun a b => a.1 + a.2.length ≤ b.1) (findTokensGo pat fuel k s) := by
  induction fuel with
  | zero =>
    intro s k _
    refine ⟨fun pr hpr => absurd hpr (by simp [findTokensGo]), by simp [findTokensGo]⟩
  | succ fuel ih =>
    intro s k hlen
    match s with
    | [] =>
      refine ⟨fun pr hpr => absurd hpr (by simp [findTokensGo]), by simp [findTokensGo]⟩
    | c :: rest =>
      simp only [findTokensGo]
      by_cases hn : matchTokenLen pat (c :: rest) = 0
      · rw [if_pos hn]
        have hrec := ih rest (k + 1)
          (by simp only [List.length_cons] at hlen; omega)
        refine ⟨?_, hrec.2⟩
        intro pr hpr
        obtain ⟨hp1, hp2, hp3, hp4, hp5⟩ := hrec.1 pr hpr
        refine ⟨by omega, hp2, by simp only [List.length_cons]; omega, ?_, hp5⟩
        rw [show pr.1 - k = (pr.1 - (k + 1)) + 1 from by omega, List.drop_succ_cons]
        exact hp4
      · rw [if_neg hn]
        obtain ⟨hm1, hm2, ds, hds1, hds2, hds3, hds4⟩ := matchTokenLen_spec pat (c :: rest) hn
        set n := matchTokenLen pat (c :: rest) with hndef
        have hn1 : 1 ≤ n := by
          have : 0 < ds.length := List.length_pos.mpr hds1
          omega
        have htklen : ((c :: rest).take n).length = n := by
          rw [List.length_take]
          omega
        have hrec := ih ((c :: rest).drop n) (k + n) (by
          rw [List.length_drop]
          simp only [List.length_cons] at hlen ⊢
          omega)
        constructor
        · intro pr hpr
          rcases List.mem_cons.mp hpr with rfl | hpr'
          · refine ⟨le_rfl, ?_, ?_, ?_, ds, hds1, hds2, hds3⟩
            · simp only
              intro hc
              rw [← List.length_eq_zero] at hc
              omega
            · simp only [htklen]
              omega
            · simp only [Nat.sub_self, List.drop_zero, htklen]
          · obtain ⟨hp1, hp2, hp3, hp4, hp5⟩ := hrec.1 pr hpr'
            rw [List.length_drop] at hp3
            refine ⟨by omega, hp2, by omega, ?_, hp5⟩
            rw [show pr.1 - k = n + (pr.1 - (k + n)) from by omega, ← List.drop_drop]
            exact hp4
        · rw [List.pairwise_cons]
          refine ⟨?_, hrec.2⟩
          intro pr hpr
          have hp1 := (hrec.1 pr hpr).1
          simp only [htklen]
          omega

/-- Absolute-position form: the spans discovered by `findTokens` starting at
position 0 are well-formed for the scanned text and chain-disjoint. -/
theorem findTokens_spec (pat : Str) (t : Str) :
    (∀ pr ∈ findTokens pat 0 t,
      pr.2 ≠ [] ∧ pr.1 + pr.2.length ≤ t.length ∧
      (t.drop pr.1).take pr.2.length = pr.2 ∧
      ∃ ds, ds ≠ [] ∧ (∀ c ∈ ds, isDigitCh c = true) ∧ pr.2 = pat ++ ds) ∧
    List.Pairwise (fun a b => a.1 + a.2.length ≤ b.1) (findTokens pat 0 t) := by
  have h := findTokensGo_spec pat t.length t 0 le_rfl
  refine ⟨?_, h.2⟩
  intro pr hpr
  obtain ⟨_, hp2, hp3, hp4, hp5⟩ := h.1 pr hpr
  simp only [Nat.sub_zero] at hp3 hp4
  exact ⟨hp2, hp3, hp4, hp5⟩

theorem slice_char_eq (t content : Str) (p L o : Nat)
    (hs : (t.drop p).take L = content) (_ho : o < L)
    (h1 : p + o < t.length) (h2 : o < content.length) :
    t[p + o] = content[o] := by
  subst hs
  rw [List.getElem_take, List.getElem_drop]

theorem cite_content_ne_R (ds : Str) (hds : ∀ c ∈ ds, isDigitCh c = true)
    (o : Nat) (ho : o < (lstr "CITETOKEN" ++ ds).length) :
    (lstr "CITETOKEN" ++ ds)[o] ≠ 'R' := by
  rw [List.getElem_append]
  split
  · rename_i hlt
    intro hcq
    have hmem := List.getElem_mem hlt
    rw [hcq] at hmem
    exact absurd hmem (by decide)
  · rename_i hge
    intro hc
    have hlt2 : o - (lstr "CITETOKEN").length < ds.length := by
      rw [List.length_append] at ho
      omega
    have hmem : ('R' : Char) ∈ ds := by
      rw [← hc]
      exact List.getElem_mem _
    exact absurd (hds _ hmem) (by decide)

theorem ref_content_ne_C (ds : Str) (hds : ∀ c ∈ ds, isDigitCh c = true)
    (o : Nat) (ho : o < (lstr "REFTOKEN" ++ ds).length) :
    (lstr "REFTOKEN" ++ ds)[o] ≠ 'C' := by
  rw [List.getElem_append]
  split
  · rename_i hlt
    intro hcq
    have hmem := List.getElem_mem hlt
    rw [hcq] at hmem
    exact absurd hmem (by decide)
  · rename_i hge
    intro hc
    have hlt2 : o - (lstr "REFTOKEN").length < ds.length := by
      rw [List.length_append] at ho
      omega
    have hmem : ('C' : Char) ∈ ds := by
      rw [← hc]
      exact List.getElem_mem _
    exact absurd (hds _ hmem) (by decide)

/-- CITETOKEN and REFTOKEN matches can never overlap in any text: the
character at the start of one match would have to occur inside the other
match's content, but 'R' does not occur in `CITETOKEN`+digits and 'C' does
not occur in `REFTOKEN`+digits. -/
theorem cite_ref_tokens_disjoint (t : Str) :
    ∀ a ∈ findTokens (lstr "CITETOKEN") 0 t, ∀ b ∈ findTokens (lstr "REFTOKEN") 0 t,
      a.1 + a.2.length ≤ b.1 ∨ b.1 + b.2.length ≤ a.1 := by
  have idx_congr : ∀ (i j : Nat) (hi : i < t.length) (hj : j < t.length),
      i = j → t[i] = t[j] := by
    intro i j hi hj h
    subst h
    rfl
  intro a ha b hb
  obtain ⟨ha1, ha2, ha3, dsa, hdsa1, hdsa2, hdsa3⟩ :=
    (findTokens_spec (lstr "CITETOKEN") t).1 a ha
  obtain ⟨hb1, hb2, hb3, dsb, hdsb1, hdsb2, hdsb3⟩ :=
    (findTokens_spec (lstr "REFTOKEN") t).1 b hb
  by_contra hc
  push_neg at hc
  obtain ⟨hc1, hc2⟩ := hc
  have hlena : 0 < a.2.length := List.length_pos.mpr ha1
  have hlenb : 0 < b.2.length := List.length_pos.mpr hb1
  rcases le_or_lt a.1 b.1 with hab | hab
  · -- b starts inside a's match: t at b.1 is 'R' yet also a CITETOKEN+digit char
    have ho : b.1 - a.1 < a.2.length := by omega
    have e1 : t[a.1 + (b.1 - a.1)] = a.2[b.1 - a.1] :=
      slice_char_eq t a.2 a.1 a.2.length (b.1 - a.1) ha3 ho (by omega) (by omega)
    have e2 : t[b.1 + 0] = b.2[0] :=
      slice_char_eq t b.2 b.1 b.2.length 0 hb3 (by omega) (by omega) (by omega)
    have e3 : b.2[0] = 'R' := by
      simp only [hdsb3]
      rfl
    have e4 : t[a.1 + (b.1 - a.1)] = t[b.1 + 0] :=
      idx_congr _ _ (by omega) (by omega) (by omega)
    have hval : a.2[b.1 - a.1] = 'R' := by
      rw [← e1, e4, e2, e3]
    have hne := cite_content_ne_R dsa hdsa2 (b.1 - a.1) (by rw [← hdsa3]; omega)
    apply hne
    simp only [hdsa3] at hval
    exact hval
  · -- a starts inside b's match: t at a.1 is 'C' yet also a REFTOKEN+digit char
    have ho : a.1 - b.1 < b.2.length := by omega
    have e1 : t[b.1 + (a.1 - b.1)] = b.2[a.1 - b.1] :=
      slice_char_eq t b.2 b.1 b.2.length (a.1 - b.1) hb3 ho (by omega) (by omega)
    have e2 : t[a.1 + 0] = a.2[0] :=
      slice_char_eq t a.2 a.1 a.2.length 0 ha3 (by omega) (by omega) (by omega)
    have e3 : a.2[0] = 'C' := by
      simp only [hdsa3]
      rfl
    have e4 : t[b.1 + (a.1 - b.1)] = t[a.1 + 0] :=
      idx_congr _ _ (by omega) (by omega) (by omega)
    have hval : b.2[a.1 - b.1] = 'C' := by
      rw [← e1, e4, e2, e3]
    have hne := ref_content_ne_C dsb hdsb2 (a.1 - b.1) (by rw [← hdsb3]; omega)
    apply hne
    simp only [hdsb3] at hval
    exact hval

theorem discovery_spans_wf (pat : Str) (t : Str) (σ : Str → Str) :
    ∀ x ∈ (findTokens pat 0 t).map
      (fun pr => Sp.mk pr.1 (pr.1 + pr.2.length) pr.2 (σ pr.2)), SpWf t x := by
  intro x hx
  rw [List.mem_map] at hx
  obtain ⟨pr, hpr, rfl⟩ := hx
  obtain ⟨h1, h2, h3, _⟩ := (findTokens_spec pat t).1 pr hpr
  refine ⟨by simp only; omega, h1, by simp only, by simp only; omega, ?_⟩
  simpa using h3

theorem discovery_spans_disjoint (t : Str) (σc σr : Str → Str) :
    (((findTokens (lstr "CITETOKEN") 0 t).map
        (fun pr => Sp.mk pr.1 (pr.1 + pr.2.length) pr.2 (σc pr.2))) ++
      ((findTokens (lstr "REFTOKEN") 0 t).map
        (fun pr => Sp.mk pr.1 (pr.1 + pr.2.length) pr.2 (σr pr.2)))).Pairwise SpDisj := by
  rw [List.pairwise_append]
  refine ⟨?_, ?_, ?_⟩
  · rw [List.pairwise_map]
    refine (findTokens_spec _ t).2.imp ?_
    intro a b h
    left
    simp only
    omega
  · rw [List.pairwise_map]
    refine (findTokens_spec _ t).2.imp ?_
    intro a b h
    left
    simp only
    omega
  · intro x hx y hy
    rw [List.mem_map] at hx hy
    obtain ⟨pa, hpa, rfl⟩ := hx
    obtain ⟨pb, hpb, rfl⟩ := hy
    rcases cite_ref_tokens_disjoint t pa hpa pb hpb with h | h
    · left
      simp only
      omega
    · right
      simp only
      omega

/-- C1: for every paragraph text and every assignment of surface forms to
discovered placeholder tokens, the substitution engine succeeds (every
internal assert — including the per-application span check — holds) and
every resulting span satisfies `text[start:end] == surface`; and every
paragraph dictionary actually returned by `process_paragraph` satisfies the
span-text invariant for all of its cite and ref spans. -/
theorem c1_span_text_invariant :
    (∀ (t : Str) (σc σr : Str → Str),
      ∃ res, sub_spans_and_update_indices
          (((findTokens (lstr "CITETOKEN") 0 t).map
              (fun pr => Sp.mk pr.1 (pr.1 + pr.2.length) pr.2 (σc pr.2))) ++
            ((findTokens (lstr "REFTOKEN") 0 t).map
              (fun pr => Sp.mk pr.1 (pr.1 + pr.2.length) pr.2 (σr pr.2)))) t = some res ∧
        ∀ y ∈ res.2, pySlice res.1 y.s y.e = y.rep) ∧
    (∀ (nodes : List PNode) (section_names : List (Option Str × Str)) (bibs refs : List Str)
        (bracket : Bool) (blob : ParaBlob) (rest : List PNode),
      process_paragraph nodes section_names bibs refs bracket = some (blob, rest) →
      (∀ b ∈ blob.cite_spans, pySlice blob.text b.start b.stop = b.text) ∧
      (∀ b ∈ blob.ref_spans, pySlice blob.text b.start b.stop = b.text)) := by
  constructor
  · intro t σc σr
    have hwf : ∀ x ∈ (((findTokens (lstr "CITETOKEN") 0 t).map
        (fun pr => Sp.mk pr.1 (pr.1 + pr.2.length) pr.2 (σc pr.2))) ++
          ((findTokens (lstr "REFTOKEN") 0 t).map
            (fun pr => Sp.mk pr.1 (pr.1 + pr.2.length) pr.2 (σr pr.2)))), SpWf t x := by
      intro x hx
      rcases List.mem_append.mp hx with h | h
      · exact discovery_spans_wf _ t σc x h
      · exact discovery_spans_wf _ t σr x h
    obtain ⟨h1, h2⟩ := engine_correct t _ hwf (discovery_spans_disjoint t σc σr)
    exact ⟨_, h1, h2⟩
  · intro nodes section_names bibs refs bracket blob rest h
    simp only [process_paragraph] at h
    split at h
    · rw [Option.some_inj, Prod.mk.injEq] at h
      rw [← h.1]
      constructor <;> intro b hb <;> simp at hb
    · split at h
      · exact absurd h (by simp)
      · split at h
        · exact absurd h (by simp)
        · split at h
          · exact absurd h (by simp)
          · split at h
            · exact absurd h (by simp)
            · split at h
              · exact absurd h (by simp)
              · split at h
                · rename_i hcond
                  rw [Option.some_inj, Prod.mk.injEq] at h
                  rw [← h.1]
                  exact hcond
                · exact absurd h (by simp)

theorem c1_span_text_invariant_witness :
    process_paragraph [PNode.nav (lstr "plain text")] [] [] [] false =
      some (⟨lstr "plain text", [], [], [], []⟩, [PNode.nav (lstr "plain text")]) ∧
    (∀ b ∈ ([] : List SpanBlob), pySlice (lstr "plain text") b.start b.stop = b.text) ∧
    (∀ b ∈ ([] : List SpanBlob), pySlice (lstr "plain text") b.start b.stop = b.text) :=
  ⟨by decide, c1_span_text_invariant.2 [PNode.nav (lstr "plain text")] [] [] [] false
    ⟨lstr "plain text", [], [], [], []⟩ [PNode.nav (lstr "plain text")] (by decide)⟩

/-- Section well-formedness for the paragraph round trip: the joined section
title string must split back into the original titles, and the recorded
`sec_num` of the last component must be recoverable (not the empty string,
and absent whenever the joined title string is empty). -/
def ParaRT (p : ParagraphS) : Prop :=
  match p.sect with
  | none => True
  | some l =>
    (l ≠ [] → List.intercalate (lstr "::") (l.map (fun q => q.2)) = [] →
      (l.getLast?.map (fun q => q.1)).getD none = none) ∧
    (l ≠ [] → List.intercalate (lstr "::") (l.map (fun q => q.2)) ≠ [] →
      pySplit (lstr "::") (List.intercalate (lstr "::") (l.map (fun q => q.2))) =
        l.map (fun q => q.2) ∧
      (l.getLast?.map (fun q => q.1)).getD none ≠ some [])

instance (p : ParagraphS) : Decidable (ParaRT p) := by
  unfold ParaRT
  cases p.sect <;> dsimp only <;> infer_instance

instance (l : List ParagraphS) : Decidable (∀ q ∈ l, ParaRT q) :=
  List.decidableBAll _ _

theorem mkParagraph_rt (q : ParagraphS) (h : ParaRT q) :
    ∃ q', paraOfJson q.as_json = some q' ∧
      q'.as_json = q.as_json ∧ q'.text = q.text := by
  rcases q with ⟨text, cs, rs, es, sect⟩
  rcases sect with _ | l
  · exact ⟨⟨text, cs, rs, es, none⟩, rfl, rfl, rfl⟩
  · rcases eq_or_ne l [] with rfl | hl
    · exact ⟨⟨text, cs, rs, es, none⟩, rfl, rfl, rfl⟩
    · unfold ParaRT at h
      dsimp only at h
      obtain ⟨last, hlast⟩ : ∃ x, l.getLast? = some x := by
        rw [← Option.isSome_iff_exists, List.getLast?_isSome]
        exact hl
      have hjson : (⟨text, cs, rs, es, some l⟩ : ParagraphS).as_json =
          .obj [(lstr "text", .jstr text),
                (lstr "cite_spans", .arr cs),
                (lstr "ref_spans", .arr rs),
                (lstr "eq_spans", .arr es),
                (lstr "section", .jstr (List.intercalate (lstr "::") (l.map (fun q => q.2)))),
                (lstr "sec_num", optStrJ last.1)] := by
        rw [ParagraphS.as_json]
        dsimp only
        rw [if_neg hl, hlast]
      rcases eq_or_ne (List.intercalate (lstr "::") (l.map (fun q => q.2))) [] with hs | hs
      · -- joined titles empty: section collapses to none on reload
        have hnum : last.1 = none := by
          have h1 := h.1 hl hs
          rw [hlast] at h1
          simpa using h1
        refine ⟨⟨text, cs, rs, es, none⟩, ?_, ?_, rfl⟩
        · rw [hjson, hs]
          rfl
        · rw [hjson, hs, hnum]
          rfl
      · obtain ⟨hsplit, hnum0⟩ := h.2 hl hs
        rw [hlast] at hnum0
        simp at hnum0
        have htitles : l.map (fun q => q.2) ≠ [] := by simp [hl]
        have htl : (l.map (fun q => q.2)).getLast? = some last.2 := by
          rw [List.getLast?_map, hlast]
          rfl
        have hmk0 : paraOfJson ((⟨text, cs, rs, es, some l⟩ : ParagraphS).as_json) =
            (match (some (optStrJ last.1) : Option JVal) with
             | some (.jstr n) =>
               if n ≠ [] ∧ ((l.map (fun q => q.2)).map
                   (fun t => ((none : Option Str), t))) ≠ [] then
                 some ⟨text, cs, rs, es,
                   some (((l.map (fun q => q.2)).map
                       (fun t => ((none : Option Str), t))).dropLast ++
                     [((some n : Option Str),
                       ((l.map (fun q => q.2)).getLast?.getD []))])⟩
               else some ⟨text, cs, rs, es,
                 some ((l.map (fun q => q.2)).map (fun t => ((none : Option Str), t)))⟩
             | _ => some ⟨text, cs, rs, es,
                 some ((l.map (fun q => q.2)).map (fun t => ((none : Option Str), t)))⟩) := by
          rw [hjson]
          show (if List.intercalate (lstr "::") (l.map (fun q => q.2)) = [] then
              some (⟨text, cs, rs, es, none⟩ : ParagraphS)
            else
              match (some (optStrJ last.1) : Option JVal) with
              | some (.jstr n) =>
                if n ≠ [] ∧ ((pySplit (lstr "::")
                    (List.intercalate (lstr "::") (l.map (fun q => q.2)))).map
                    (fun t => ((none : Option Str), t))) ≠ [] then
                  some ⟨text, cs, rs, es,
                    some (((pySplit (lstr "::")
                        (List.intercalate (lstr "::") (l.map (fun q => q.2)))).map
                        (fun t => ((none : Option Str), t))).dropLast ++
                      [((some n : Option Str),
                        ((pySplit (lstr "::")
                          (List.intercalate (lstr "::")
                            (l.map (fun q => q.2)))).getLast?.getD []))])⟩
                else some ⟨text, cs, rs, es,
                  some ((pySplit (lstr "::")
                      (List.intercalate (lstr "::") (l.map (fun q => q.2)))).map
                    (fun t => ((none : Option Str), t)))⟩
              | _ => some ⟨text, cs, rs, es,
                  some ((pySplit (lstr "::")
                      (List.intercalate (lstr "::") (l.map (fun q => q.2)))).map
                    (fun t => ((none : Option Str), t)))⟩) = _
          rw [if_neg hs, hsplit]
        have hbne : ((l.map (fun q => q.2)).map (fun t => ((none : Option Str), t))) ≠ [] := by
          simp [hl]
        have hsnd : ((l.map (fun q => q.2)).map
            (fun t => ((none : Option Str), t))).map (fun q => q.2) =
            l.map (fun q => q.2) := by
          simp
        rcases hn : last.1 with _ | n
        · -- last sec_num is None: reload keeps the bare title list
          refine ⟨⟨text, cs, rs, es,
            some ((l.map (fun q => q.2)).map (fun t => ((none : Option Str), t)))⟩,
            ?_, ?_, rfl⟩
          · rw [hmk0, hn]
            rfl
          · rw [hjson, ParagraphS.as_json]
            dsimp only
            rw [if_neg hbne, List.getLast?_map, htl, hsnd, hn]
            rfl
        · -- last sec_num is Some n with n nonempty: it is re-attached on reload
          have hne : n ≠ [] := by
            intro hcon
            exact hnum0 (by rw [hn, hcon])
          refine ⟨⟨text, cs, rs, es,
            some (((l.map (fun q => q.2)).map
                (fun t => ((none : Option Str), t))).dropLast ++
              [((some n : Option Str), ((l.map (fun q => q.2)).getLast?.getD []))])⟩,
            ?_, ?_, rfl⟩
          · rw [hmk0, hn]
            show (if n ≠ [] ∧ _ ≠ [] then _ else _) = _
            rw [if_pos ⟨hne, hbne⟩]
          · rw [hjson, ParagraphS.as_json]
            dsimp only
            have hlne : (((l.map (fun q => q.2)).map
                (fun t => ((none : Option Str), t))).dropLast ++
              [((some n : Option Str), ((l.map (fun q => q.2)).getLast?.getD []))]) ≠ [] := by
              simp
            have hmsnd : (((l.map (fun q => q.2)).map
                (fun t => ((none : Option Str), t))).dropLast ++
              [((some n : Option Str), ((l.map (fun q => q.2)).getLast?.getD []))]).map
                (fun q => q.2) = l.map (fun q => q.2) := by
              rw [List.map_append, List.map_dropLast, hsnd, htl]
              show (l.map (fun q => q.2)).dropLast ++ [last.2] = _
              have hgl := List.getLast?_eq_getLast (l.map (fun q => q.2)) htitles
              rw [htl] at hgl
              rw [show last.2 = (l.map (fun q => q.2)).getLast htitles from
                Option.some_inj.mp hgl]
              exact List.dropLast_append_getLast htitles
            rw [if_neg hlne, List.getLast?_concat, hmsnd, hn]

theorem paras_rt (l : List ParagraphS) (h : ∀ q ∈ l, ParaRT q) :
    ∃ l', loadParas (some (.arr (l.map ParagraphS.as_json))) = some l' ∧
      l'.map ParagraphS.as_json = l.map ParagraphS.as_json ∧
      l'.map (fun q => q.text) = l.map (fun q => q.text) := by
  induction l with
  | nil => exact ⟨[], rfl, rfl, rfl⟩
  | cons q l ih =>
    obtain ⟨q', hq1, hq2, hq3⟩ := mkParagraph_rt q (h q (by simp))
    obtain ⟨l', hl1, hl2, hl3⟩ := ih (fun x hx => h x (by simp [hx]))
    refine ⟨q' :: l', ?_, ?_, ?_⟩
    · show (List.map ParagraphS.as_json (q :: l)).mapM paraOfJson = _
      rw [List.map_cons, List.mapM_cons]
      rw [hq1, show (List.map ParagraphS.as_json l).mapM paraOfJson = some l' from hl1]
      rfl
    · rw [List.map_cons, List.map_cons, hq2, hl2]
    · rw [List.map_cons, List.map_cons, hq3, hl3]

theorem bib_rt (b : BibliographyEntryS) :
    bibOfJson (b.bib_id, b.as_json) = some b := rfl

theorem bibs_rt (l : List BibliographyEntryS) :
    loadBibs (some (.obj (l.map (fun b => (b.bib_id, b.as_json))))) = some l := by
  induction l with
  | nil => rfl
  | cons b l ih =>
    show (List.map (fun b => (b.bib_id, b.as_json)) (b :: l)).mapM bibOfJson = _
    rw [List.map_cons, List.mapM_cons]
    rw [bib_rt b, show (List.map (fun b => (b.bib_id, b.as_json)) l).mapM bibOfJson =
      some l from ih]
    rfl

theorem ref_rt (r : ReferenceEntryS) :
    ∃ r', refOfJson (r.ref_id, r.as_json) = some r' ∧
      r'.ref_id = r.ref_id ∧ r'.as_json = r.as_json := by
  rcases r with ⟨rid, tx, ts, la, mm, co, ht, ur, nu, pa⟩
  by_cases h1 : ts = lstr "figure"
  · subst h1
    exact ⟨⟨rid, tx, lstr "figure", .null, .null, .null, .null, ur, nu, .null⟩, rfl, rfl, rfl⟩
  by_cases h2 : ts = lstr "table"
  · subst h2
    exact ⟨⟨rid, tx, lstr "table", .null, .null, co, ht, .null, nu, .null⟩, rfl, rfl, rfl⟩
  by_cases h3 : ts = lstr "footnote"
  · subst h3
    exact ⟨⟨rid, tx, lstr "footnote", .null, .null, .null, .null, .null, nu, .null⟩,
      rfl, rfl, rfl⟩
  by_cases h4 : ts = lstr "section"
  · subst h4
    exact ⟨⟨rid, tx, lstr "section", .null, .null, .null, .null, .null, nu, pa⟩, rfl, rfl, rfl⟩
  by_cases h5 : ts = lstr "equation"
  · subst h5
    exact ⟨⟨rid, tx, lstr "equation", la, mm, .null, .null, .null, nu, .null⟩, rfl, rfl, rfl⟩
  refine ⟨⟨rid, tx, ts, la, mm, co, ht, ur, nu, pa⟩, ?_, rfl, rfl⟩
  show refOfJson (rid, ReferenceEntryS.as_json ⟨rid, tx, ts, la, mm, co, ht, ur, nu, pa⟩) = _
  rw [ReferenceEntryS.as_json]
  dsimp only
  rw [if_neg h1, if_neg h2, if_neg h3, if_neg h4, if_neg h5]
  rfl

theorem refs_rt (l : List ReferenceEntryS) :
    ∃ l', loadRefs (some (.obj (l.map (fun r => (r.ref_id, r.as_json))))) = some l' ∧
      l'.map (fun r => (r.ref_id, r.as_json)) = l.map (fun r => (r.ref_id, r.as_json)) := by
  induction l with
  | nil => exact ⟨[], rfl, rfl⟩
  | cons r l ih =>
    obtain ⟨r', hr1, hr2, hr3⟩ := ref_rt r
    obtain ⟨l', hl1, hl2⟩ := ih
    refine ⟨r' :: l', ?_, ?_⟩
    · show (List.map (fun r => (r.ref_id, r.as_json)) (r :: l)).mapM refOfJson = _
      rw [List.map_cons, List.mapM_cons]
      rw [hr1, show (List.map (fun r => (r.ref_id, r.as_json)) l).mapM refOfJson =
        some l' from hl1]
      rfl
    · rw [List.map_cons, List.map_cons, hl2, hr2, hr3]

def c8QuirkPaper : PaperS :=
  ⟨lstr "p1", .jstr (lstr "h9"), ⟨.jstr (lstr "T"), [], .jint 2020, .null, .obj []⟩, [],
   [⟨lstr "Body", [], [], [], some [(some (lstr "1"), [])]⟩], [], [], []⟩

def c8QuirkLoaded : PaperS :=
  ⟨lstr "p1", .null, defaultMetadataS, [],
   [⟨lstr "Body", [], [], [], none⟩], [], [], []⟩

/-- C8 counterexample: the round trip `release_json` then `load_s2orc` then
`release_json` is not the identity outside the header block.  A body
paragraph with a section number but an empty joined section-title string
loses that section number (the re-serialized `body_text` block differs from
the original), and the metadata is not preserved either: `load_s2orc` looks
for a `metadata` key inside the parse block and for `_pdf_hash` at the top
level — `release_json` writes neither there — so the reloaded paper carries
the default metadata and a null pdf hash, and the re-serialized top-level
`title` differs from the original. -/
theorem c8_sec_num_dropped :
    load_s2orc (c8QuirkPaper.release_json (lstr "pdf") (lstr "t1")) = some c8QuirkLoaded ∧
    (jGet (c8QuirkLoaded.release_json (lstr "pdf") (lstr "t1")) (lstr "pdf_parse")).bind
        (fun v => jGet v (lstr "body_text")) ≠
      (jGet (c8QuirkPaper.release_json (lstr "pdf") (lstr "t1")) (lstr "pdf_parse")).bind
        (fun v => jGet v (lstr "body_text")) ∧
    c8QuirkLoaded.metadata = defaultMetadataS ∧
    c8QuirkLoaded.pdf_hash = JVal.null ∧
    jGet (c8QuirkLoaded.release_json (lstr "pdf") (lstr "t1")) (lstr "title") ≠
      jGet (c8QuirkPaper.release_json (lstr "pdf") (lstr "t1")) (lstr "title") := by
  refine ⟨rfl, ?_, rfl, rfl, ?_⟩
  · intro h
    have h2 := congrArg (fun o : Option JVal =>
      jStr? (o.bind (fun v =>
        match v with
        | .arr (x :: _) => jGet x (lstr "sec_num")
        | _ => none))) h
    exact absurd h2 (by decide)
  · intro h
    exact absurd (congrArg jStr? h) (by decide)

/-- C8 (amended): loading a released Paper JSON with `load_s2orc` and
re-serializing with `release_json` reproduces the `abstract`, `body_text`,
`bib_entries` and `ref_entries` blocks of the parse dictionary, and the
top-level abstract string, identically, PROVIDED every paragraph section is
well-formed in the sense of `ParaRT`: the joined section-title string must
split back into the original titles (no title contains the `::` separator),
a recorded last section number must not be the empty string, and if the
joined title string is empty there must be no recorded section number —
outside these conditions the round trip genuinely differs
(`c8_sec_num_dropped`).  The rest of the release dictionary is NOT
reproduced: beyond the header timestamps, the reloaded paper always carries
the default metadata (null title/year/venue, empty authors) and a null pdf
hash, because `load_s2orc` reads `metadata` from inside the parse block and
`_pdf_hash` from the top level, where `release_json` never writes them. -/
theorem c8_load_release_round_trip (p : PaperS) (now1 now2 : Str)
    (hab : ∀ q ∈ p.abstract, ParaRT q)
    (hbt : ∀ q ∈ p.body_text, ParaRT q)
    (hbm : ∀ q ∈ p.back_matter, ParaRT q) :
    ∃ p2, load_s2orc (p.release_json (lstr "pdf") now1) = some p2 ∧
      p2.metadata = defaultMetadataS ∧ p2.pdf_hash = JVal.null ∧
      (∀ k ∈ [lstr "abstract", lstr "body_text", lstr "bib_entries", lstr "ref_entries"],
        (jGet (p2.release_json (lstr "pdf") now2) (lstr "pdf_parse")).bind
            (fun v => jGet v k) =
          (jGet (p.release_json (lstr "pdf") now1) (lstr "pdf_parse")).bind
            (fun v => jGet v k)) ∧
      jGet (p2.release_json (lstr "pdf") now2) (lstr "abstract") =
        jGet (p.release_json (lstr "pdf") now1) (lstr "abstract") := by
  obtain ⟨ab', hab1, hab2, hab3⟩ := paras_rt p.abstract hab
  obtain ⟨bt', hbt1, hbt2, hbt3⟩ := paras_rt p.body_text hbt
  obtain ⟨bm', hbm1, hbm2, hbm3⟩ := paras_rt p.back_matter hbm
  have hbib := bibs_rt p.bib_entries
  obtain ⟨refs', href1, href2⟩ := refs_rt p.ref_entries
  refine ⟨⟨p.paper_id, .null, defaultMetadataS, ab', bt', bm', p.bib_entries, refs'⟩,
    ?_, rfl, rfl, ?_, ?_⟩
  · show ((loadParas (some (.arr (p.abstract.map ParagraphS.as_json)))).bind fun ab =>
        (loadParas (some (.arr (p.body_text.map ParagraphS.as_json)))).bind fun bt =>
        (loadParas (some (.arr (p.back_matter.map ParagraphS.as_json)))).bind fun bm =>
        (loadBibs (some (.obj (p.bib_entries.map (fun b => (b.bib_id, b.as_json)))))).bind
          fun bibs =>
        (loadRefs (some (.obj (p.ref_entries.map (fun r => (r.ref_id, r.as_json)))))).map
          fun refs =>
          (⟨p.paper_id, .null, defaultMetadataS, ab, bt, bm, bibs, refs⟩ : PaperS)) = _
    rw [hab1, hbt1, hbm1, hbib, href1]
    rfl
  · intro k hk
    fin_cases hk
    · show some (JVal.arr (ab'.map ParagraphS.as_json)) =
        some (JVal.arr (p.abstract.map ParagraphS.as_json))
      rw [hab2]
    · show some (JVal.arr (bt'.map ParagraphS.as_json)) =
        some (JVal.arr (p.body_text.map ParagraphS.as_json))
      rw [hbt2]
    · rfl
    · show some (JVal.obj (refs'.map (fun r => (r.ref_id, r.as_json)))) =
        some (JVal.obj (p.ref_entries.map (fun r => (r.ref_id, r.as_json))))
      rw [href2]
  · show some (JVal.jstr (List.intercalate ['\n'] (ab'.map (fun q => q.text)))) =
      some (JVal.jstr (List.intercalate ['\n'] (p.abstract.map (fun q => q.text))))
    rw [hab3]

def c8Paper : PaperS :=
  ⟨lstr "p1", .null, defaultMetadataS,
   [⟨lstr "Hello", [], [], [], some [(some (lstr "1"), lstr "Intro")]⟩],
   [⟨lstr "Body", [], [], [], none⟩], [],
   [⟨lstr "BIBREF0", .null, .jstr (lstr "T"), .arr [], .null, .null, .null, .null, .null,
     .null, .jint 0, .null, .null, .null⟩],
   [⟨lstr "FIGREF0", .jstr (lstr "fig one"), lstr "figure", .null, .null, .null, .null,
     .null, .jint 0, .null⟩]⟩

theorem c8_load_release_round_trip_witness :
    (∀ q ∈ c8Paper.abstract, ParaRT q) ∧
    (∃ p2, load_s2orc (c8Paper.release_json (lstr "pdf") (lstr "t1")) = some p2 ∧
      p2.metadata = defaultMetadataS ∧ p2.pdf_hash = JVal.null ∧
      (∀ k ∈ [lstr "abstract", lstr "body_text", lstr "bib_entries", lstr "ref_entries"],
        (jGet (p2.release_json (lstr "pdf") (lstr "t2")) (lstr "pdf_parse")).bind
            (fun v => jGet v k) =
          (jGet (c8Paper.release_json (lstr "pdf") (lstr "t1")) (lstr "pdf_parse")).bind
            (fun v => jGet v k)) ∧
      jGet (p2.release_json (lstr "pdf") (lstr "t2")) (lstr "abstract") =
        jGet (c8Paper.release_json (lstr "pdf") (lstr "t1")) (lstr "abstract")) :=
  ⟨by decide, c8_load_release_round_trip c8Paper (lstr "t1") (lstr "t2")
    (by decide) (by decide) (by decide)⟩

end D2J
